import Mathlib

/-!
Verification of the DTF canvas-print packing pipeline

Shallow embedding of the image-preparation and rectangle-packing core of the
repository (`src/services/packer.ts`, the packer module imported by the
application code).  JavaScript numbers are modelled as rationals (`ℚ`); the
arithmetic performed by the code (addition, subtraction, multiplication,
division, `Math.min`/`Math.max`/`Math.abs`/`Math.floor`, comparisons) is exact
on the rationals.  Bitmaps are modelled as a size plus a total pixel function;
decoding of an image file is an external browser operation and is modelled by
an `Option Bitmap` carried with each uploaded file.
-/

namespace DtfPack

/-- One RGBA pixel; the four channel bytes are modelled as naturals.
`trimTransparent` only ever reads the alpha channel `a`. -/
structure Pix where
  r : ℕ
  g : ℕ
  b : ℕ
  a : ℕ
deriving DecidableEq

/-- A decoded bitmap: pixel dimensions plus a total pixel function.
Coordinates outside `width × height` are irrelevant to every operation
modelled here (the code never reads them). -/
structure Bitmap where
  width : ℕ
  height : ℕ
  pix : ℕ → ℕ → Pix

/-- `interface Rect { x, y, w, h }` from `src/services/packer.ts`. -/
structure Rect where
  x : ℚ
  y : ℚ
  w : ℚ
  h : ℚ
deriving DecidableEq

/-- `CanvasConfig` from `src/types` (`widthCm`, `heightCm`, `dpi`, `padding`,
`allowRotation`).  In `src/services/packer.ts` the `padding` field is used
directly as a pixel quantity. -/
structure CanvasConfig where
  widthCm : ℚ
  heightCm : ℚ
  dpi : ℚ
  padding : ℚ
  allowRotation : Bool

/-- `UploadedFile` reduced to what the packing core reads: the stable id and
the outcome of decoding its `preview` image (an external browser operation,
modelled by the optional decoded bitmap; `none` is a decode failure, which in
the source fires `img.onerror`). -/
structure UploadedFile where
  id : ℕ
  img : Option Bitmap

/-- The intermediate item record built in Step 1 of `packImages`
(`{ id, file, source, w, h }`); the pixel source itself is carried through
unchanged by the source code and never influences placement, so only the id
and the dimensions of the (possibly trimmed) source are modelled. -/
structure Item where
  id : ℕ
  w : ℕ
  h : ℕ
deriving DecidableEq

/-- `PackedImage` from `src/types`, restricted to the fields the packing core
writes (the pixel `source` and `file` handle are carried through opaquely). -/
structure PackedImage where
  id : ℕ
  width : ℚ
  height : ℚ
  x : ℚ
  y : ℚ
  rotated : Bool
  originalWidth : ℕ
  originalHeight : ℕ
deriving DecidableEq

/-- One entry of the `failed` list: `{ file, reason }`. -/
structure FailEntry where
  file : UploadedFile
  reason : String

/-- `PackResult` from `src/services/packer.ts`. -/
structure PackResult where
  packed : List PackedImage
  failed : List FailEntry

/-- The placement record returned by `MaxRectsPacker.pack`. -/
structure Placement where
  x : ℚ
  y : ℚ
  rotated : Bool
deriving DecidableEq

/-! ## Trimmer (`trimTransparent`) -/

/-- State of the pixel scan in `trimTransparent`
(`let top = canvas.height, bottom = 0, left = canvas.width, right = 0` and the
`found` flag). -/
structure TrimScan where
  top : ℕ
  bottom : ℕ
  left : ℕ
  right : ℕ
  found : Bool
deriving DecidableEq

/-- One step of the alpha scan: on a pixel with `alpha > 0` the running
bounding box is widened (`if (x < left) left = x` is `min`, `if (x > right)
right = x` is `max`, and likewise for `top`/`bottom`) and `found` is set. -/
def trimScanStep (img : Bitmap) (s : TrimScan) (p : ℕ × ℕ) : TrimScan :=
  if 0 < (img.pix p.1 p.2).a then
    { top := min s.top p.2, bottom := max s.bottom p.2,
      left := min s.left p.1, right := max s.right p.1, found := true }
  else s

/-- The row-major list of pixel coordinates visited by the nested
`for (y) ... for (x)` loops of `trimTransparent`. -/
def scanPoints (w h : ℕ) : List (ℕ × ℕ) :=
  (List.range h).flatMap (fun y => (List.range w).map (fun x => (x, y)))

/-- The complete alpha scan of `trimTransparent`, folding `trimScanStep` over
the pixels in the source's row-major visit order. -/
def trimScan (img : Bitmap) : TrimScan :=
  (scanPoints img.width img.height).foldl (trimScanStep img)
    ⟨img.height, 0, img.width, 0, false⟩

/-- `trimTransparent` from `src/services/packer.ts`: if no pixel has positive
alpha the input is returned unchanged (`if (!found) return img`); otherwise a
new bitmap of size `(right-left+1) × (bottom-top+1)` is produced whose content
is the sub-region copied by
`drawImage(img, left, top, trimmedWidth, trimmedHeight, 0, 0, ...)`.
(The 2d-context acquisitions, which cannot fail in the modelled environment,
are assumed to succeed.) -/
def trimTransparent (img : Bitmap) : Bitmap :=
  let s := trimScan img
  if s.found then
    { width := s.right - s.left + 1,
      height := s.bottom - s.top + 1,
      pix := fun x y => img.pix (x + s.left) (y + s.top) }
  else img

/-! ## MaxRects packer (`class MaxRectsPacker`) -/

/-- The intersection test of `splitFreeRects`:
`used.x < free.x + free.w && used.x + used.w > free.x && used.y < free.y +
free.h && used.y + used.h > free.y`.  This is the "overlap with positive
area" test for the two rectangles. -/
def Rect.overlaps (used free : Rect) : Prop :=
  used.x < free.x + free.w ∧ used.x + used.w > free.x ∧
  used.y < free.y + free.h ∧ used.y + used.h > free.y

instance (a b : Rect) : Decidable (a.overlaps b) :=
  inferInstanceAs (Decidable (_ ∧ _ ∧ _ ∧ _))

/-- Containment test used by `pruneFreeRects`: `r2` lies inside `r1`
(`r2.x >= r1.x && r2.y >= r1.y && r2.x + r2.w <= r1.x + r1.w &&
r2.y + r2.h <= r1.y + r1.h`). -/
def Rect.insideOf (r2 r1 : Rect) : Prop :=
  r1.x ≤ r2.x ∧ r1.y ≤ r2.y ∧ r2.x + r2.w ≤ r1.x + r1.w ∧ r2.y + r2.h ≤ r1.y + r1.h

instance (a b : Rect) : Decidable (a.insideOf b) :=
  inferInstanceAs (Decidable (_ ∧ _ ∧ _ ∧ _))

namespace MaxRectsPacker

/-- The up-to-four residual rectangles (left, right, top, bottom slivers)
that `splitFreeRects` pushes for a free rectangle intersecting `used`,
in the source's push order. -/
def splitOne (used free : Rect) : List Rect :=
  (if used.x > free.x then
    [⟨free.x, free.y, used.x - free.x, free.h⟩] else []) ++
  (if used.x + used.w < free.x + free.w then
    [⟨used.x + used.w, free.y, free.x + free.w - (used.x + used.w), free.h⟩] else []) ++
  (if used.y > free.y then
    [⟨free.x, free.y, free.w, used.y - free.y⟩] else []) ++
  (if used.y + used.h < free.y + free.h then
    [⟨free.x, used.y + used.h, free.w, free.y + free.h - (used.y + used.h)⟩] else [])

/-- `splitFreeRects`: every free rectangle intersecting `used` is replaced by
its residual slivers.  The source's `for` loop appends the slivers at the end
of the array and removes the split rectangle in place, so the resulting array
is: the non-intersecting rectangles in their original order, followed by the
slivers of the intersecting rectangles in encounter order.  The loop also
re-examines the appended slivers, but never splits one: a sliver never
intersects `used` (theorem `splitOne_not_overlaps` below), so this list is
exactly the loop's final array. -/
def splitFreeRects (used : Rect) (frs : List Rect) : List Rect :=
  frs.filter (fun f => !decide (used.overlaps f)) ++
  (frs.filter (fun f => decide (used.overlaps f))).flatMap (splitOne used)

/-- The inner `j` loop of `pruneFreeRects` for a fixed outer rectangle `r1`,
scanning the rectangles after it.  Returns whether `r1` survived the scan,
together with the scanned suffix after the in-place removals:
`r2` contained in `r1` is removed (`splice(j,1); j--; continue`); if `r1` is
contained in `r2` the loop stops and `r1` is the one removed
(`splice(i,1); i--; break`), leaving `r2` and the rest untouched. -/
def pruneInner (r1 : Rect) : List Rect → Bool × List Rect
  | [] => (true, [])
  | r2 :: rest =>
    if r2.insideOf r1 then pruneInner r1 rest
    else if r1.insideOf r2 then (false, r2 :: rest)
    else
      let p := pruneInner r1 rest
      (p.1, r2 :: p.2)

theorem pruneInner_length_le (r1 : Rect) (l : List Rect) :
    (pruneInner r1 l).2.length ≤ l.length := by
  induction l with
  | nil => simp [pruneInner]
  | cons r2 rest ih =>
    by_cases h1 : r2.insideOf r1
    · simpa [pruneInner, h1] using ih.trans (Nat.le_succ _)
    · by_cases h2 : r1.insideOf r2
      · simp [pruneInner, h1, h2]
      · simpa [pruneInner, h1, h2] using ih

/-- The outer `i` loop of `pruneFreeRects`.  When `r1` survives its inner scan
the loop advances past it (rectangles before index `i` are never compared
again); when `r1` was removed, the loop resumes at the same index, i.e. on the
scanned remainder. -/
def pruneFreeRects : List Rect → List Rect
  | [] => []
  | r1 :: rest =>
    if (pruneInner r1 rest).1 then r1 :: pruneFreeRects (pruneInner r1 rest).2
    else pruneFreeRects (pruneInner r1 rest).2
termination_by l => l.length
decreasing_by
  all_goals
    simp_wf
    exact Nat.lt_succ_of_le (pruneInner_length_le _ _)

/-- The running best candidate of the placement search in
`MaxRectsPacker.pack` (`bestRect`, `bestRotated`, `bestShortSideFit`,
`bestLongSideFit`).  The source initialises the score to `Number.MAX_VALUE`
with `bestRect = null`; since every real candidate scores strictly below
`MAX_VALUE`, the null state is modelled by `Option`. -/
structure BestFit where
  rect : Rect
  rotated : Bool
  ssf : ℚ
  lsf : ℚ
deriving DecidableEq

/-- One orientation test of the search loop: if the free rectangle admits the
candidate dimensions `(cw, ch)` the score is
`shortSideFit = min |rect.w - cw| |rect.h - ch|`,
`longSideFit  = max |rect.w - cw| |rect.h - ch|`, and the candidate replaces
the best so far exactly when `shortSideFit < bestShortSideFit ||
(shortSideFit === bestShortSideFit && longSideFit < bestLongSideFit)`. -/
def tryCandidate (cw ch : ℚ) (rect : Rect) (rot : Bool) (best : Option BestFit) :
    Option BestFit :=
  if rect.w ≥ cw ∧ rect.h ≥ ch then
    let ssf := min |rect.w - cw| |rect.h - ch|
    let lsf := max |rect.w - cw| |rect.h - ch|
    match best with
    | none => some ⟨rect, rot, ssf, lsf⟩
    | some b =>
      if ssf < b.ssf ∨ (ssf = b.ssf ∧ lsf < b.lsf) then some ⟨rect, rot, ssf, lsf⟩
      else some b
  else best

/-- The full search loop of `pack` over the free-rectangle list: for each free
rectangle the normal orientation `(w, h)` is tried, then — only when
`allowRotation` — the rotated orientation with candidate dimensions
`(h, w)`. -/
def findBest (w h : ℚ) (allowRot : Bool) (frs : List Rect) : Option BestFit :=
  frs.foldl
    (fun best rect =>
      let b1 := tryCandidate w h rect false best
      if allowRot then tryCandidate h w rect true b1 else b1)
    none

/-- `MaxRectsPacker.pack(width, height, allowRotation)`.  The candidate is
inflated by the padding on both sides (`w = width + this.padding * 2`), the
best free rectangle is found, the used rectangle (orientation-swapped if
rotated) is split out of the free list and the list is pruned.  Returns the
placement (position of the chosen free rectangle, untranslated) together with
the new free list; on failure (`if (!bestRect) return null`) the free list is
returned untouched. -/
def pack (padding : ℚ) (width height : ℚ) (allowRot : Bool) (frs : List Rect) :
    Option Placement × List Rect :=
  let w := width + padding * 2
  let h := height + padding * 2
  match findBest w h allowRot frs with
  | none => (none, frs)
  | some b =>
    let finalW := if b.rotated then h else w
    let finalH := if b.rotated then w else h
    (some ⟨b.rect.x, b.rect.y, b.rotated⟩,
      pruneFreeRects (splitFreeRects ⟨b.rect.x, b.rect.y, finalW, finalH⟩ frs))

/-- The constructor's initial free list: one rectangle spanning the canvas. -/
def initFreeRects (width height : ℚ) : List Rect := [⟨0, 0, width, height⟩]

end MaxRectsPacker

/-! ## Pipeline orchestrator (`packImages`) -/

/-- `const canvasWidth = Math.floor((widthCm / 2.54) * dpi)`, as a rational. -/
def canvasWidth (cfg : CanvasConfig) : ℚ := ((⌊cfg.widthCm / 2.54 * cfg.dpi⌋ : ℤ) : ℚ)

/-- `const canvasHeight = Math.floor((heightCm / 2.54) * dpi)`, as a rational. -/
def canvasHeight (cfg : CanvasConfig) : ℚ := ((⌊cfg.heightCm / 2.54 * cfg.dpi⌋ : ℤ) : ℚ)

/-- Step 1 of `packImages`: each file is decoded (decode failures resolve to
`null` and are dropped by `if (item) items.push(item)`), optionally trimmed,
and recorded with the dimensions of the resulting source. -/
def prepareItems (shouldTrim : Bool) (files : List UploadedFile) : List Item :=
  files.filterMap fun f =>
    f.img.map fun img =>
      let src := if shouldTrim then trimTransparent img else img
      ⟨f.id, src.width, src.height⟩

/-- The area-descending comparison key of the Step 2 sort
(`(a, b) => b.w * b.h - a.w * a.h`): `a` may precede `b` iff the comparator is
non-positive, i.e. iff `b.w * b.h ≤ a.w * a.h`. -/
def itemLE (a b : Item) : Prop := b.w * b.h ≤ a.w * a.h

instance : DecidableRel itemLE := fun _ _ => inferInstanceAs (Decidable (_ ≤ _))

/-- Step 2 of `packImages`: `items.sort((a, b) => areaB - areaA)`.
`Array.prototype.sort` is guaranteed stable and, for a comparator that is a
consistent total preorder (this one depends only on the numeric area), the
stably sorted output is unique; it is modelled by a stable insertion sort
with respect to `itemLE`. -/
def sortItems (items : List Item) : List Item := items.insertionSort itemLE

/-- The auto-scale guard and computation of Step 3:
`if (autoScaleToFit && (Math.min(w, h) + padding * 2) > canvasWidth)` then
`scale = (canvasWidth - padding * 2) / minDim` is applied to both dimensions
with `Math.floor`. -/
def autoScaleStep (cw padding : ℚ) (w h : ℚ) : ℚ × ℚ :=
  if min w h + padding * 2 > cw then
    let minDim := min w h
    let scale := (cw - padding * 2) / minDim
    (((⌊w * scale⌋ : ℤ) : ℚ), ((⌊h * scale⌋ : ℤ) : ℚ))
  else (w, h)

/-- The candidate dimensions handed to `packer.pack` for one item: the item's
dimensions, auto-scaled when the flag is set. -/
def scaledDims (cw padding : ℚ) (autoScaleToFit : Bool) (item : Item) : ℚ × ℚ :=
  if autoScaleToFit then autoScaleStep cw padding (item.w : ℚ) (item.h : ℚ)
  else ((item.w : ℚ), (item.h : ℚ))

/-- The mutable state of the Step 3 packing loop: the packer's free list and
the two accumulating result arrays. -/
structure PackState where
  freeRects : List Rect
  packed : List PackedImage
  failed : List FailEntry

/-- One iteration of the Step 3 loop of `packImages`: auto-scale, call
`packer.pack(w, h, allowRotation)`; on success push the placed record
(orientation-swapped dimensions, position offset by the padding); on failure
push `{ file: files.find(f => f.id === item.id)!, reason: 'No space
available' }` (the non-null assertion is modelled by a default that is never
reached, since every item id is a file id). -/
def packStep (files : List UploadedFile) (cfg : CanvasConfig) (cw : ℚ)
    (autoScaleToFit : Bool) (s : PackState) (item : Item) : PackState :=
  let wh := scaledDims cw cfg.padding autoScaleToFit item
  let w := wh.1
  let h := wh.2
  match MaxRectsPacker.pack cfg.padding w h cfg.allowRotation s.freeRects with
  | (some fit, frs') =>
    { freeRects := frs',
      packed := s.packed ++ [{
        id := item.id,
        width := if fit.rotated then h else w,
        height := if fit.rotated then w else h,
        x := fit.x + cfg.padding,
        y := fit.y + cfg.padding,
        rotated := fit.rotated,
        originalWidth := item.w,
        originalHeight := item.h }],
      failed := s.failed }
  | (none, _) =>
    { s with failed := s.failed ++
        [⟨(files.find? fun f => f.id == item.id).getD ⟨item.id, none⟩,
          "No space available"⟩] }

/-- The initial packing state: the `MaxRectsPacker` constructor seeds the free
list with the whole canvas, and both result arrays start empty. -/
def initState (cfg : CanvasConfig) : PackState :=
  ⟨MaxRectsPacker.initFreeRects (canvasWidth cfg) (canvasHeight cfg), [], []⟩

/-- The packing state reached after the first `n` items of the Step 3 loop
(all items once `n ≥` the item count).  Exposing the intermediate states lets
the free-space invariant be stated "at every point during a run". -/
def packRunState (files : List UploadedFile) (cfg : CanvasConfig)
    (autoScaleToFit shouldTrim : Bool) (n : ℕ) : PackState :=
  ((sortItems (prepareItems shouldTrim files)).take n).foldl
    (packStep files cfg (canvasWidth cfg) autoScaleToFit) (initState cfg)

/-- `packImages(files, config, autoScaleToFit, shouldTrim)` from
`src/services/packer.ts`: prepare (decode + optional trim), sort by
descending area, pack greedily with one `MaxRectsPacker`, and return the
accumulated `packed` and `failed` lists.  The `onProgress` callback only
reports progress and is not modelled. -/
def packImages (files : List UploadedFile) (cfg : CanvasConfig)
    (autoScaleToFit shouldTrim : Bool) : PackResult :=
  let items := sortItems (prepareItems shouldTrim files)
  let final := items.foldl
    (packStep files cfg (canvasWidth cfg) autoScaleToFit) (initState cfg)
  ⟨final.packed, final.failed⟩

/-- The padding-inflated footprint of a packed item: its rectangle
`{x, y, width, height}` widened by the configured padding on all four
sides. -/
def inflate (padding : ℚ) (q : PackedImage) : Rect :=
  ⟨q.x - padding, q.y - padding, q.width + padding * 2, q.height + padding * 2⟩

/-! ## Basic geometry lemmas about the split and prune steps -/

theorem Rect.overlaps_symm {a b : Rect} (h : a.overlaps b) : b.overlaps a := by
  obtain ⟨h1, h2, h3, h4⟩ := h
  exact ⟨by linarith, by linarith, by linarith, by linarith⟩

/-- Growing a rectangle preserves any overlap: if `a` lies inside `b`
then whatever overlaps `a` overlaps `b`. -/
theorem Rect.overlaps_of_insideOf {c a b : Rect} (hin : a.insideOf b)
    (h : c.overlaps a) : c.overlaps b := by
  obtain ⟨i1, i2, i3, i4⟩ := hin
  obtain ⟨h1, h2, h3, h4⟩ := h
  exact ⟨by linarith, by linarith, by linarith, by linarith⟩

/-- Each residual sliver produced by the split lies inside the free rectangle
it came from, provided that rectangle intersects `used`. -/
theorem splitOne_insideOf {used free : Rect} (hov : used.overlaps free) :
    ∀ s ∈ MaxRectsPacker.splitOne used free, s.insideOf free := by
  obtain ⟨h1, h2, h3, h4⟩ := hov
  intro s hs
  simp only [MaxRectsPacker.splitOne, List.mem_append] at hs
  rcases hs with ((hs | hs) | hs) | hs <;>
    [skip; skip; skip; skip] <;>
  · split at hs <;> simp_all only [List.mem_singleton, List.not_mem_nil]
    subst hs
    exact ⟨by dsimp; linarith, by dsimp; linarith, by dsimp; linarith, by dsimp; linarith⟩

/-- No residual sliver intersects the used rectangle itself; this is what
keeps the source's split loop from re-splitting the slivers it appends. -/
theorem splitOne_not_overlaps (used free : Rect) :
    ∀ s ∈ MaxRectsPacker.splitOne used free, ¬ used.overlaps s := by
  intro s hs
  simp only [MaxRectsPacker.splitOne, List.mem_append] at hs
  rcases hs with ((hs | hs) | hs) | hs <;>
  · split at hs <;> simp_all only [List.mem_singleton, List.not_mem_nil]
    subst hs
    rintro ⟨h1, h2, h3, h4⟩
    dsimp at h1 h2 h3 h4
    linarith

/-- Membership in the split result: an element is either a kept original that
does not intersect `used`, or a sliver of an original that does. -/
theorem mem_splitFreeRects {used : Rect} {frs : List Rect} {f : Rect}
    (hf : f ∈ MaxRectsPacker.splitFreeRects used frs) :
    (f ∈ frs ∧ ¬ used.overlaps f) ∨
    ∃ g ∈ frs, used.overlaps g ∧ f ∈ MaxRectsPacker.splitOne used g := by
  simp only [MaxRectsPacker.splitFreeRects, List.mem_append, List.mem_filter,
    List.mem_flatMap, Bool.not_eq_eq_eq_not, Bool.not_true, decide_eq_false_iff_not,
    decide_eq_true_eq] at hf
  rcases hf with ⟨hmem, hno⟩ | ⟨g, ⟨hg, hov⟩, hs⟩
  · exact Or.inl ⟨hmem, hno⟩
  · exact Or.inr ⟨g, hg, hov, hs⟩

theorem pruneInner_subset {r1 : Rect} {l : List Rect} {r : Rect}
    (h : r ∈ (MaxRectsPacker.pruneInner r1 l).2) : r ∈ l := by
  induction l with
  | nil => simp [MaxRectsPacker.pruneInner] at h
  | cons r2 rest ih =>
    by_cases h1 : r2.insideOf r1
    · simp only [MaxRectsPacker.pruneInner, if_pos h1] at h
      exact List.mem_cons_of_mem _ (ih h)
    · by_cases h2 : r1.insideOf r2
      · simpa [MaxRectsPacker.pruneInner, h1, h2] using h
      · simp only [MaxRectsPacker.pruneInner, if_neg h1, if_neg h2, List.mem_cons] at h
        rcases h with h | h
        · exact h ▸ List.mem_cons_self _ _
        · exact List.mem_cons_of_mem _ (ih h)

theorem pruneFreeRects_subset : ∀ (l : List Rect) (r : Rect),
    r ∈ MaxRectsPacker.pruneFreeRects l → r ∈ l
  | [], r, h => by simp [MaxRectsPacker.pruneFreeRects] at h
  | r1 :: rest, r, h => by
    rw [MaxRectsPacker.pruneFreeRects] at h
    split at h
    · rcases List.mem_cons.mp h with h | h
      · exact h ▸ List.mem_cons_self _ _
      · exact List.mem_cons_of_mem _
          (pruneInner_subset (pruneFreeRects_subset _ _ h))
    · exact List.mem_cons_of_mem _
        (pruneInner_subset (pruneFreeRects_subset _ _ h))
termination_by l => l.length
decreasing_by
  all_goals
    simp_wf
    exact Nat.lt_succ_of_le (MaxRectsPacker.pruneInner_length_le _ _)

/-! ## Specification of the placement search (`findBest`) -/

namespace MaxRectsPacker

/-- The candidate width the search tests against a free rectangle: the normal
orientation uses `w`, the rotated one `h`. -/
def orientW (w h : ℚ) (rot : Bool) : ℚ := if rot then h else w

/-- The candidate height the search tests against a free rectangle. -/
def orientH (w h : ℚ) (rot : Bool) : ℚ := if rot then w else h

/-- A free rectangle admits the candidate in the given orientation:
`rect.w ≥ candidateW && rect.h ≥ candidateH`. -/
def fits (w h : ℚ) (r : Rect) (rot : Bool) : Prop :=
  orientW w h rot ≤ r.w ∧ orientH w h rot ≤ r.h

instance (w h : ℚ) (r : Rect) (rot : Bool) : Decidable (fits w h r rot) :=
  inferInstanceAs (Decidable (_ ∧ _))

/-- `shortSideFit` of an orientation against a free rectangle. -/
def scoreSSF (w h : ℚ) (r : Rect) (rot : Bool) : ℚ :=
  min |r.w - orientW w h rot| |r.h - orientH w h rot|

/-- `longSideFit` (the other leftover dimension) of an orientation against a
free rectangle. -/
def scoreLSF (w h : ℚ) (r : Rect) (rot : Bool) : ℚ :=
  max |r.w - orientW w h rot| |r.h - orientH w h rot|

/-- The rectangle/orientation pairs the search loop examines, in visit
order: each free rectangle in its normal orientation, then (only when
rotation is allowed) rotated. -/
def candPairs (allowRot : Bool) (frs : List Rect) : List (Rect × Bool) :=
  frs.flatMap fun r => (r, false) :: (if allowRot then [(r, true)] else [])

/-- The search-loop invariant: the running best is `none` exactly while no
examined pair fits, and otherwise is an examined fitting pair carrying its
true scores and lexicographically minimal among all examined fitting pairs. -/
def GoodBest (w h : ℚ) (cands : List (Rect × Bool)) : Option BestFit → Prop
  | none => ∀ c ∈ cands, ¬ fits w h c.1 c.2
  | some b =>
      (b.rect, b.rotated) ∈ cands ∧ fits w h b.rect b.rotated ∧
      b.ssf = scoreSSF w h b.rect b.rotated ∧
      b.lsf = scoreLSF w h b.rect b.rotated ∧
      ∀ c ∈ cands, fits w h c.1 c.2 →
        b.ssf < scoreSSF w h c.1 c.2 ∨
        (b.ssf = scoreSSF w h c.1 c.2 ∧ b.lsf ≤ scoreLSF w h c.1 c.2)

theorem tryCandidate_of_not_fit {w h : ℚ} {rect : Rect} {rot : Bool}
    {best : Option BestFit} (h' : ¬ fits w h rect rot) :
    tryCandidate (orientW w h rot) (orientH w h rot) rect rot best = best := by
  have hn : ¬ (orientW w h rot ≤ rect.w ∧ orientH w h rot ≤ rect.h) := h'
  simp [tryCandidate, hn]

theorem tryCandidate_none_of_fit {w h : ℚ} {rect : Rect} {rot : Bool}
    (h' : fits w h rect rot) :
    tryCandidate (orientW w h rot) (orientH w h rot) rect rot none =
      some ⟨rect, rot, scoreSSF w h rect rot, scoreLSF w h rect rot⟩ := by
  have hp : (orientW w h rot ≤ rect.w ∧ orientH w h rot ≤ rect.h) := h'
  simp [tryCandidate, hp, scoreSSF, scoreLSF]

theorem tryCandidate_some_of_fit {w h : ℚ} {rect : Rect} {rot : Bool}
    {b : BestFit} (h' : fits w h rect rot) :
    tryCandidate (orientW w h rot) (orientH w h rot) rect rot (some b) =
      if scoreSSF w h rect rot < b.ssf ∨
          (scoreSSF w h rect rot = b.ssf ∧ scoreLSF w h rect rot < b.lsf)
      then some ⟨rect, rot, scoreSSF w h rect rot, scoreLSF w h rect rot⟩
      else some b := by
  have hp : (orientW w h rot ≤ rect.w ∧ orientH w h rot ≤ rect.h) := h'
  simp [tryCandidate, hp, scoreSSF, scoreLSF]

theorem tryCandidate_good {w h : ℚ} {cands : List (Rect × Bool)}
    {o : Option BestFit} (rect : Rect) (rot : Bool)
    (hgood : GoodBest w h cands o) :
    GoodBest w h (cands ++ [(rect, rot)])
      (tryCandidate (orientW w h rot) (orientH w h rot) rect rot o) := by
  by_cases hfit : fits w h rect rot
  · cases o with
    | none =>
      rw [tryCandidate_none_of_fit hfit]
      refine ⟨List.mem_append_right _ (List.mem_singleton_self _), hfit, rfl, rfl, ?_⟩
      intro c hc hcfit
      rcases List.mem_append.mp hc with hc | hc
      · exact absurd hcfit (hgood c hc)
      · rw [List.mem_singleton.mp hc]
        exact Or.inr ⟨rfl, le_refl _⟩
    | some b =>
      obtain ⟨hmem, hbfit, hssf, hlsf, hmin⟩ := hgood
      rw [tryCandidate_some_of_fit hfit]
      by_cases himp : scoreSSF w h rect rot < b.ssf ∨
          (scoreSSF w h rect rot = b.ssf ∧ scoreLSF w h rect rot < b.lsf)
      · rw [if_pos himp]
        refine ⟨List.mem_append_right _ (List.mem_singleton_self _), hfit, rfl, rfl, ?_⟩
        intro c hc hcfit
        rcases List.mem_append.mp hc with hc | hc
        · rcases hmin c hc hcfit with hlt | ⟨heq, hle⟩
          · rcases himp with h1 | ⟨h1, h2⟩
            · exact Or.inl (by dsimp; linarith)
            · exact Or.inl (by dsimp; linarith [h1.le])
          · rcases himp with h1 | ⟨h1, h2⟩
            · exact Or.inl (by dsimp; linarith [heq.ge])
            · exact Or.inr ⟨by dsimp; linarith, by dsimp; linarith⟩
        · rw [List.mem_singleton.mp hc]
          exact Or.inr ⟨rfl, le_refl _⟩
      · rw [if_neg himp]
        push_neg at himp
        obtain ⟨h1, h2⟩ := himp
        refine ⟨List.mem_append_left _ hmem, hbfit, hssf, hlsf, ?_⟩
        intro c hc hcfit
        rcases List.mem_append.mp hc with hc | hc
        · exact hmin c hc hcfit
        · rw [List.mem_singleton.mp hc]
          rcases lt_or_eq_of_le h1 with hlt | heqq
          · exact Or.inl (by dsimp; linarith [hssf.le, hssf.ge])
          · exact Or.inr ⟨by dsimp; linarith [hssf.le, hssf.ge],
              by dsimp; linarith [hlsf.le, hlsf.ge, h2 heqq.symm]⟩
  · rw [tryCandidate_of_not_fit hfit]
    cases o with
    | none =>
      intro c hc
      rcases List.mem_append.mp hc with hc | hc
      · exact hgood c hc
      · rw [List.mem_singleton.mp hc]
        exact hfit
    | some b =>
      obtain ⟨hmem, hbfit, hssf, hlsf, hmin⟩ := hgood
      refine ⟨List.mem_append_left _ hmem, hbfit, hssf, hlsf, ?_⟩
      intro c hc hcfit
      rcases List.mem_append.mp hc with hc | hc
      · exact hmin c hc hcfit
      · rw [List.mem_singleton.mp hc] at hcfit
        exact absurd hcfit hfit

theorem foldl_good (w h : ℚ) (allowRot : Bool) :
    ∀ (frs : List Rect) (cands : List (Rect × Bool)) (best : Option BestFit),
      GoodBest w h cands best →
      GoodBest w h (cands ++ candPairs allowRot frs)
        (frs.foldl
          (fun best rect =>
            let b1 := tryCandidate w h rect false best
            if allowRot then tryCandidate h w rect true b1 else b1)
          best)
  | [], cands, best, hgood => by simpa [candPairs] using hgood
  | rect :: frs, cands, best, hgood => by
    have good1 : GoodBest w h (cands ++ [(rect, false)])
        (tryCandidate w h rect false best) :=
      tryCandidate_good (o := best) rect false hgood
    rw [List.foldl_cons]
    cases har : allowRot with
    | false =>
      simp only [har, if_false]
      have := foldl_good w h false frs (cands ++ [(rect, false)])
        (tryCandidate w h rect false best) (by simpa [har] using good1)
      have heq : (cands ++ [(rect, false)]) ++ candPairs false frs =
          cands ++ candPairs false (rect :: frs) := by
        simp [candPairs]
      simpa [heq] using this
    | true =>
      simp only [har, if_true]
      have good2 : GoodBest w h (cands ++ [(rect, false), (rect, true)])
          (tryCandidate h w rect true (tryCandidate w h rect false best)) := by
        have := tryCandidate_good (o := tryCandidate w h rect false best) rect true good1
        rw [List.append_assoc] at this
        exact this
      have := foldl_good w h true frs (cands ++ [(rect, false), (rect, true)])
        (tryCandidate h w rect true (tryCandidate w h rect false best))
        (by simpa [har] using good2)
      have heq : (cands ++ [(rect, false), (rect, true)]) ++ candPairs true frs =
          cands ++ candPairs true (rect :: frs) := by
        simp [candPairs]
      simpa [heq] using this

theorem findBest_good (w h : ℚ) (allowRot : Bool) (frs : List Rect) :
    GoodBest w h (candPairs allowRot frs) (findBest w h allowRot frs) := by
  have h0 : GoodBest w h [] (none : Option BestFit) := by
    intro c hc
    exact absurd hc (List.not_mem_nil c)
  have := foldl_good w h allowRot frs [] none h0
  simpa [findBest] using this

theorem mem_candPairs {allowRot : Bool} {frs : List Rect} {r : Rect} {rot : Bool} :
    (r, rot) ∈ candPairs allowRot frs ↔ r ∈ frs ∧ (rot = true → allowRot = true) := by
  simp only [candPairs, List.mem_flatMap, List.mem_cons, Prod.mk.injEq]
  constructor
  · rintro ⟨a, ha, ⟨rfl, rfl⟩ | hr⟩
    · exact ⟨ha, by simp⟩
    · cases allowRot <;> simp_all
  · rintro ⟨hr, hrot⟩
    refine ⟨r, hr, ?_⟩
    cases rot with
    | false => exact Or.inl ⟨rfl, rfl⟩
    | true => simp [hrot rfl]

end MaxRectsPacker

/-- **C4** — The placement search examines every free rectangle in both
orientations (the rotated one only when `allowRotation` holds, a fit
requiring `rect.w ≥ candidateW` and `rect.h ≥ candidateH`), returns `none`
exactly when no free rectangle admits either orientation, and otherwise
returns an admissible rectangle/orientation pair minimizing
`shortSideFit = min (rect.w - candidateW) (rect.h - candidateH)` with ties
broken by the smaller other leftover dimension (Best Long Side Fit). -/
theorem findBest_best_short_side_fit (w h : ℚ) (allowRot : Bool) (frs : List Rect) :
    (MaxRectsPacker.findBest w h allowRot frs = none ↔
      ∀ r ∈ frs, ∀ rot : Bool, (rot = true → allowRot = true) →
        ¬ MaxRectsPacker.fits w h r rot) ∧
    (∀ b, MaxRectsPacker.findBest w h allowRot frs = some b →
      b.rect ∈ frs ∧ (b.rotated = true → allowRot = true) ∧
      MaxRectsPacker.fits w h b.rect b.rotated ∧
      b.ssf = MaxRectsPacker.scoreSSF w h b.rect b.rotated ∧
      b.lsf = MaxRectsPacker.scoreLSF w h b.rect b.rotated ∧
      ∀ r ∈ frs, ∀ rot : Bool, (rot = true → allowRot = true) →
        MaxRectsPacker.fits w h r rot →
        b.ssf < MaxRectsPacker.scoreSSF w h r rot ∨
        (b.ssf = MaxRectsPacker.scoreSSF w h r rot ∧
          b.lsf ≤ MaxRectsPacker.scoreLSF w h r rot)) := by
  have hg := MaxRectsPacker.findBest_good w h allowRot frs
  constructor
  · constructor
    · intro hnone r hr rot hrot hfit
      rw [hnone] at hg
      exact hg (r, rot) (MaxRectsPacker.mem_candPairs.mpr ⟨hr, hrot⟩) hfit
    · intro hall
      cases hfb : MaxRectsPacker.findBest w h allowRot frs with
      | none => rfl
      | some b =>
        rw [hfb] at hg
        obtain ⟨hmem, hfit, -⟩ := hg
        obtain ⟨hr, hrot⟩ := MaxRectsPacker.mem_candPairs.mp hmem
        exact absurd hfit (hall b.rect hr b.rotated hrot)
  · intro b hb
    rw [hb] at hg
    obtain ⟨hmem, hfit, hssf, hlsf, hmin⟩ := hg
    obtain ⟨hr, hrot⟩ := MaxRectsPacker.mem_candPairs.mp hmem
    exact ⟨hr, hrot, hfit, hssf, hlsf, fun r hrm rot hrota hfits =>
      hmin (r, rot) (MaxRectsPacker.mem_candPairs.mpr ⟨hrm, hrota⟩) hfits⟩

/-! ## The geometric packing invariant (for the no-overlap and bounds claims) -/

/-- A rectangle lies inside the canvas `[0, W] × [0, H]`. -/
def Rect.withinCanvas (W H : ℚ) (r : Rect) : Prop :=
  0 ≤ r.x ∧ 0 ≤ r.y ∧ r.x + r.w ≤ W ∧ r.y + r.h ≤ H

theorem Rect.withinCanvas_of_insideOf {W H : ℚ} {r f : Rect}
    (hin : r.insideOf f) (hf : f.withinCanvas W H) : r.withinCanvas W H := by
  obtain ⟨i1, i2, i3, i4⟩ := hin
  obtain ⟨w1, w2, w3, w4⟩ := hf
  exact ⟨by linarith, by linarith, by linarith, by linarith⟩

/-- The rectangle carved out of the free space by a successful `pack` call:
the chosen free rectangle's corner with the padding-inflated,
orientation-swapped candidate dimensions (`finalW`/`finalH` in the source). -/
def MaxRectsPacker.usedRect (padding width height : ℚ) (b : MaxRectsPacker.BestFit) :
    Rect :=
  ⟨b.rect.x, b.rect.y,
    MaxRectsPacker.orientW (width + padding * 2) (height + padding * 2) b.rotated,
    MaxRectsPacker.orientH (width + padding * 2) (height + padding * 2) b.rotated⟩

/-- Inversion of a successful `pack` call. -/
theorem pack_some {padding width height : ℚ} {allowRot : Bool} {frs frs' : List Rect}
    {fit : Placement}
    (h : MaxRectsPacker.pack padding width height allowRot frs = (some fit, frs')) :
    ∃ b : MaxRectsPacker.BestFit,
      MaxRectsPacker.findBest (width + padding * 2) (height + padding * 2)
        allowRot frs = some b ∧
      fit = ⟨b.rect.x, b.rect.y, b.rotated⟩ ∧
      frs' = MaxRectsPacker.pruneFreeRects (MaxRectsPacker.splitFreeRects
        (MaxRectsPacker.usedRect padding width height b) frs) := by
  cases hfb : MaxRectsPacker.findBest (width + padding * 2) (height + padding * 2)
      allowRot frs with
  | none =>
    have h0 : ((none : Option Placement), frs) = (some fit, frs') := by
      rw [← h, MaxRectsPacker.pack, hfb]
    exact absurd (congrArg Prod.fst h0) (by simp)
  | some b =>
    have h0 : (some (⟨b.rect.x, b.rect.y, b.rotated⟩ : Placement),
        MaxRectsPacker.pruneFreeRects (MaxRectsPacker.splitFreeRects
          (MaxRectsPacker.usedRect padding width height b) frs)) = (some fit, frs') := by
      rw [← h, MaxRectsPacker.pack, hfb]
      rfl
    rw [Prod.ext_iff] at h0
    exact ⟨b, rfl, (Option.some.inj h0.1).symm, h0.2.symm⟩

/-- Inversion of a failed `pack` call: the free list is returned untouched. -/
theorem pack_none {padding width height : ℚ} {allowRot : Bool} {frs : List Rect}
    (h : (MaxRectsPacker.pack padding width height allowRot frs).1 = none) :
    (MaxRectsPacker.pack padding width height allowRot frs).2 = frs := by
  cases hfb : MaxRectsPacker.findBest (width + padding * 2) (height + padding * 2)
      allowRot frs with
  | none => rw [MaxRectsPacker.pack, hfb]
  | some b =>
    rw [MaxRectsPacker.pack, hfb] at h
    exact absurd h (by simp)

/-- The chosen carved rectangle lies inside the chosen free rectangle. -/
theorem usedRect_insideOf {padding width height : ℚ} {b : MaxRectsPacker.BestFit}
    (hfit : MaxRectsPacker.fits (width + padding * 2) (height + padding * 2)
      b.rect b.rotated) :
    (MaxRectsPacker.usedRect padding width height b).insideOf b.rect := by
  obtain ⟨h1, h2⟩ := hfit
  exact ⟨le_refl _, le_refl _, by dsimp [MaxRectsPacker.usedRect]; linarith,
    by dsimp [MaxRectsPacker.usedRect]; linarith⟩

/-- The carved rectangle equals the padding-inflated footprint of the packed
item that `packImages` records for it. -/
theorem inflate_eq_usedRect (padding width height : ℚ) (b : MaxRectsPacker.BestFit)
    (idv ow oh : ℕ) :
    inflate padding
      { id := idv,
        width := if b.rotated then height else width,
        height := if b.rotated then width else height,
        x := b.rect.x + padding,
        y := b.rect.y + padding,
        rotated := b.rotated,
        originalWidth := ow,
        originalHeight := oh } =
    MaxRectsPacker.usedRect padding width height b := by
  cases hr : b.rotated <;>
    simp [inflate, MaxRectsPacker.usedRect, MaxRectsPacker.orientW,
      MaxRectsPacker.orientH, hr]

/-- The geometric loop invariant: all free rectangles lie inside the canvas
and avoid every placed inflated footprint; all placed inflated footprints lie
inside the canvas and are pairwise overlap-free. -/
structure PackInv (W H p : ℚ) (s : PackState) : Prop where
  free_in : ∀ f ∈ s.freeRects, f.withinCanvas W H
  free_disj : ∀ f ∈ s.freeRects, ∀ q ∈ s.packed, ¬ (inflate p q).overlaps f
  placed_in : ∀ q ∈ s.packed, (inflate p q).withinCanvas W H
  placed_disj : s.packed.Pairwise fun a b => ¬ (inflate p a).overlaps (inflate p b)

theorem packInv_init (cfg : CanvasConfig) :
    PackInv (canvasWidth cfg) (canvasHeight cfg) cfg.padding (initState cfg) := by
  refine ⟨?_, ?_, ?_, ?_⟩
  · intro f hf
    rcases List.mem_singleton.mp hf
    exact ⟨le_refl _, le_refl _, by simp, by simp⟩
  · intro f _ q hq
    exact absurd hq (List.not_mem_nil q)
  · intro q hq
    exact absurd hq (List.not_mem_nil q)
  · exact List.Pairwise.nil

/-- `packStep` on a successful `pack` call. -/
theorem packStep_of_fit {files : List UploadedFile} {cfg : CanvasConfig} {cw : ℚ}
    {autoScale : Bool} {s : PackState} {item : Item} {fit : Placement}
    {frs' : List Rect}
    (hp : MaxRectsPacker.pack cfg.padding
      (scaledDims cw cfg.padding autoScale item).1
      (scaledDims cw cfg.padding autoScale item).2
      cfg.allowRotation s.freeRects = (some fit, frs')) :
    packStep files cfg cw autoScale s item =
      { freeRects := frs',
        packed := s.packed ++ [{
          id := item.id,
          width := if fit.rotated then (scaledDims cw cfg.padding autoScale item).2
            else (scaledDims cw cfg.padding autoScale item).1,
          height := if fit.rotated then (scaledDims cw cfg.padding autoScale item).1
            else (scaledDims cw cfg.padding autoScale item).2,
          x := fit.x + cfg.padding,
          y := fit.y + cfg.padding,
          rotated := fit.rotated,
          originalWidth := item.w,
          originalHeight := item.h }],
        failed := s.failed } := by
  simp only [packStep]
  rw [hp]

/-- `packStep` on a failed `pack` call. -/
theorem packStep_of_no_fit {files : List UploadedFile} {cfg : CanvasConfig} {cw : ℚ}
    {autoScale : Bool} {s : PackState} {item : Item} {frs' : List Rect}
    (hp : MaxRectsPacker.pack cfg.padding
      (scaledDims cw cfg.padding autoScale item).1
      (scaledDims cw cfg.padding autoScale item).2
      cfg.allowRotation s.freeRects = (none, frs')) :
    packStep files cfg cw autoScale s item =
      { s with failed := s.failed ++
          [⟨(files.find? fun f => f.id == item.id).getD ⟨item.id, none⟩,
            "No space available"⟩] } := by
  simp only [packStep]
  rw [hp]

theorem packStep_inv {W H : ℚ} {files : List UploadedFile} {cfg : CanvasConfig}
    {cw : ℚ} {autoScale : Bool} {s : PackState} {item : Item}
    (hinv : PackInv W H cfg.padding s) :
    PackInv W H cfg.padding (packStep files cfg cw autoScale s item) := by
  cases hp : MaxRectsPacker.pack cfg.padding
      (scaledDims cw cfg.padding autoScale item).1
      (scaledDims cw cfg.padding autoScale item).2
      cfg.allowRotation s.freeRects with
  | mk fit? frs' =>
  cases fit? with
  | none =>
    rw [packStep_of_no_fit hp]
    exact ⟨hinv.free_in, hinv.free_disj, hinv.placed_in, hinv.placed_disj⟩
  | some fit =>
    rw [packStep_of_fit hp]
    obtain ⟨b, hfb, hfit_eq, hfrs'⟩ := pack_some hp
    set w := (scaledDims cw cfg.padding autoScale item).1 with hw
    set h := (scaledDims cw cfg.padding autoScale item).2 with hh
    set used := MaxRectsPacker.usedRect cfg.padding w h b with hused
    have hg := MaxRectsPacker.findBest_good (w + cfg.padding * 2)
      (h + cfg.padding * 2) cfg.allowRotation s.freeRects
    rw [hfb] at hg
    obtain ⟨hmemc, hfits, -, -, -⟩ := hg
    have hbrect : b.rect ∈ s.freeRects := (MaxRectsPacker.mem_candPairs.mp hmemc).1
    have hin_used : used.insideOf b.rect := usedRect_insideOf hfits
    -- the inflated footprint of the newly packed item is exactly `used`
    have hinfl : inflate cfg.padding
        { id := item.id,
          width := if fit.rotated then h else w,
          height := if fit.rotated then w else h,
          x := fit.x + cfg.padding,
          y := fit.y + cfg.padding,
          rotated := fit.rotated,
          originalWidth := item.w,
          originalHeight := item.h } = used := by
      rw [hfit_eq]
      exact inflate_eq_usedRect cfg.padding w h b item.id item.w item.h
    -- facts about the new free list
    have hmem' : ∀ f ∈ frs',
        (f ∈ s.freeRects ∧ ¬ used.overlaps f) ∨
        ∃ g ∈ s.freeRects, used.overlaps g ∧ f ∈ MaxRectsPacker.splitOne used g := by
      intro f hf
      rw [hfrs'] at hf
      exact mem_splitFreeRects (pruneFreeRects_subset _ f hf)
    have hfree_in' : ∀ f ∈ frs', f.withinCanvas W H := by
      intro f hf
      rcases hmem' f hf with ⟨hmem, -⟩ | ⟨g, hg, hov, hsl⟩
      · exact hinv.free_in f hmem
      · exact Rect.withinCanvas_of_insideOf (splitOne_insideOf hov f hsl)
          (hinv.free_in g hg)
    have hfree_disj_used : ∀ f ∈ frs', ¬ used.overlaps f := by
      intro f hf
      rcases hmem' f hf with ⟨-, hno⟩ | ⟨g, -, -, hsl⟩
      · exact hno
      · exact splitOne_not_overlaps used g f hsl
    have hfree_disj_old : ∀ f ∈ frs', ∀ q ∈ s.packed,
        ¬ (inflate cfg.padding q).overlaps f := by
      intro f hf q hq hov
      rcases hmem' f hf with ⟨hmem, -⟩ | ⟨g, hg, hovg, hsl⟩
      · exact hinv.free_disj f hmem q hq hov
      · exact hinv.free_disj g hg q hq
          (Rect.overlaps_of_insideOf (splitOne_insideOf hovg f hsl) hov)
    refine ⟨hfree_in', ?_, ?_, ?_⟩
    · -- free rectangles avoid every placed footprint, old and new
      intro f hf q hq
      rcases List.mem_append.mp hq with hq | hq
      · exact hfree_disj_old f hf q hq
      · rw [List.mem_singleton.mp hq, hinfl]
        exact hfree_disj_used f hf
    · -- placed footprints lie inside the canvas
      intro q hq
      rcases List.mem_append.mp hq with hq | hq
      · exact hinv.placed_in q hq
      · rw [List.mem_singleton.mp hq, hinfl]
        exact Rect.withinCanvas_of_insideOf hin_used (hinv.free_in b.rect hbrect)
    · -- placed footprints are pairwise overlap-free
      refine List.pairwise_append.mpr ⟨hinv.placed_disj, List.pairwise_singleton _ _, ?_⟩
      intro a ha q hq
      rw [List.mem_singleton.mp hq, hinfl]
      intro hov
      exact hinv.free_disj b.rect hbrect a ha (Rect.overlaps_of_insideOf hin_used hov)

/-- The invariant is preserved over any run of the packing loop. -/
theorem packInv_foldl (W H : ℚ) (files : List UploadedFile) (cfg : CanvasConfig)
    (cw : ℚ) (autoScale : Bool) (items : List Item) (s : PackState)
    (hinv : PackInv W H cfg.padding s) :
    PackInv W H cfg.padding
      (items.foldl (packStep files cfg cw autoScale) s) := by
  induction items generalizing s with
  | nil => exact hinv
  | cons item items ih =>
    rw [List.foldl_cons]
    exact ih _ (packStep_inv hinv)

/-- **C1** — For every input file list and every configuration with positive
canvas dimensions and non-negative padding, any two distinct items of the
`packed` list returned by `packImages` have disjoint footprints once each
item's rectangle `{x, y, width, height}` is inflated by the configured
padding on all four sides: the inflated rectangles do not overlap. -/
theorem packed_no_overlap (files : List UploadedFile) (cfg : CanvasConfig)
    (autoScaleToFit shouldTrim : Bool)
    (_hW : 0 < canvasWidth cfg) (_hH : 0 < canvasHeight cfg)
    (_hpad : 0 ≤ cfg.padding) :
    (packImages files cfg autoScaleToFit shouldTrim).packed.Pairwise
      fun a b => ¬ (inflate cfg.padding a).overlaps (inflate cfg.padding b) :=
  (packInv_foldl (canvasWidth cfg) (canvasHeight cfg) files cfg
    (canvasWidth cfg) autoScaleToFit
    (sortItems (prepareItems shouldTrim files)) (initState cfg)
    (packInv_init cfg)).placed_disj

/-- Witness for C1 at a concrete input: a 10×10-pixel canvas configuration
(2.54 cm at 10 dpi) with padding 1 and one opaque 4×3 file. -/
theorem packed_no_overlap_witness :
    ((0 : ℚ) < canvasWidth ⟨2.54, 2.54, 10, 1, false⟩) ∧
    (packImages [⟨1, some ⟨4, 3, fun _ _ => ⟨0, 0, 0, 255⟩⟩⟩]
        ⟨2.54, 2.54, 10, 1, false⟩ true true).packed.Pairwise
      (fun a b =>
        ¬ (inflate (⟨2.54, 2.54, 10, 1, false⟩ : CanvasConfig).padding a).overlaps
          (inflate (⟨2.54, 2.54, 10, 1, false⟩ : CanvasConfig).padding b)) :=
  ⟨by with_unfolding_all decide,
   packed_no_overlap _ _ _ _ (by with_unfolding_all decide)
     (by with_unfolding_all decide) (by with_unfolding_all decide)⟩

/-- **C3** — For every input and every configuration with positive canvas
dimensions and non-negative padding, every item in the `packed` list returned
by `packImages` lies inside the canvas: `0 ≤ x`, `0 ≤ y`,
`x + width ≤ canvasWidthPx` and `y + height ≤ canvasHeightPx`, where the
pixel dimensions are the ones `packImages` derives from the configuration. -/
theorem packed_within_bounds (files : List UploadedFile) (cfg : CanvasConfig)
    (autoScaleToFit shouldTrim : Bool)
    (_hW : 0 < canvasWidth cfg) (_hH : 0 < canvasHeight cfg)
    (hpad : 0 ≤ cfg.padding) :
    ∀ q ∈ (packImages files cfg autoScaleToFit shouldTrim).packed,
      0 ≤ q.x ∧ 0 ≤ q.y ∧ q.x + q.width ≤ canvasWidth cfg ∧
        q.y + q.height ≤ canvasHeight cfg := by
  intro q hq
  have hinv := packInv_foldl (canvasWidth cfg) (canvasHeight cfg) files cfg
    (canvasWidth cfg) autoScaleToFit
    (sortItems (prepareItems shouldTrim files)) (initState cfg) (packInv_init cfg)
  obtain ⟨w1, w2, w3, w4⟩ := hinv.placed_in q hq
  dsimp [inflate] at w1 w2 w3 w4
  exact ⟨by linarith, by linarith, by linarith, by linarith⟩

/-- Witness for C3 at a concrete input: a 20×20-pixel canvas configuration
(5.08 cm at 10 dpi) with padding 2 and one opaque 5×4 file. -/
theorem packed_within_bounds_witness :
    ((0 : ℚ) < canvasWidth ⟨5.08, 5.08, 10, 2, true⟩) ∧
    ∀ q ∈ (packImages [⟨7, some ⟨5, 4, fun _ _ => ⟨1, 2, 3, 200⟩⟩⟩]
        ⟨5.08, 5.08, 10, 2, true⟩ true false).packed,
      0 ≤ q.x ∧ 0 ≤ q.y ∧ q.x + q.width ≤ canvasWidth ⟨5.08, 5.08, 10, 2, true⟩ ∧
        q.y + q.height ≤ canvasHeight ⟨5.08, 5.08, 10, 2, true⟩ :=
  ⟨by with_unfolding_all decide,
   packed_within_bounds _ _ _ _ (by with_unfolding_all decide)
     (by with_unfolding_all decide) (by with_unfolding_all decide)⟩

/-- Witness for C4 at a concrete input: one 10×10 free rectangle, candidate
4×3, no rotation; the search returns that rectangle unrotated with
`shortSideFit = 6`, `longSideFit = 7`, and it scores no worse than the
admissible unrotated candidate itself. -/
theorem findBest_best_short_side_fit_witness :
    (⟨0, 0, 10, 10⟩ : Rect) ∈ [(⟨0, 0, 10, 10⟩ : Rect)] ∧
    MaxRectsPacker.fits 4 3 ⟨0, 0, 10, 10⟩ false ∧
    ((6 : ℚ) < MaxRectsPacker.scoreSSF 4 3 ⟨0, 0, 10, 10⟩ false ∨
      ((6 : ℚ) = MaxRectsPacker.scoreSSF 4 3 ⟨0, 0, 10, 10⟩ false ∧
        (7 : ℚ) ≤ MaxRectsPacker.scoreLSF 4 3 ⟨0, 0, 10, 10⟩ false)) := by
  have h := (findBest_best_short_side_fit 4 3 false [⟨0, 0, 10, 10⟩]).2
    ⟨⟨0, 0, 10, 10⟩, false, 6, 7⟩ (by with_unfolding_all decide)
  exact ⟨h.1, h.2.2.1, h.2.2.2.2.2 ⟨0, 0, 10, 10⟩ (List.mem_singleton_self _) false
    (fun hf => by cases hf) h.2.2.1⟩

/-! ## State-frame lemmas for the packing loop -/

/-- One packing step only reads the free list and appends to the result
arrays: running it from any state equals running it from the same free list
with empty result arrays and appending. -/
theorem packStep_frame (files : List UploadedFile) (cfg : CanvasConfig) (cw : ℚ)
    (autoScale : Bool) (s : PackState) (item : Item) :
    packStep files cfg cw autoScale s item =
      { freeRects :=
          (packStep files cfg cw autoScale ⟨s.freeRects, [], []⟩ item).freeRects,
        packed := s.packed ++
          (packStep files cfg cw autoScale ⟨s.freeRects, [], []⟩ item).packed,
        failed := s.failed ++
          (packStep files cfg cw autoScale ⟨s.freeRects, [], []⟩ item).failed } := by
  cases hp : MaxRectsPacker.pack cfg.padding
      (scaledDims cw cfg.padding autoScale item).1
      (scaledDims cw cfg.padding autoScale item).2
      cfg.allowRotation s.freeRects with
  | mk fit? frs' =>
  cases fit? with
  | some fit =>
    rw [packStep_of_fit (s := s) hp,
      packStep_of_fit (s := (⟨s.freeRects, [], []⟩ : PackState)) hp]
    simp
  | none =>
    rw [packStep_of_no_fit (s := s) hp,
      packStep_of_no_fit (s := (⟨s.freeRects, [], []⟩ : PackState)) hp]
    simp

/-- The packing loop only reads the free list and appends to the result
arrays. -/
theorem packLoop_frame (files : List UploadedFile) (cfg : CanvasConfig) (cw : ℚ)
    (autoScale : Bool) :
    ∀ (items : List Item) (s : PackState),
      items.foldl (packStep files cfg cw autoScale) s =
        { freeRects := (items.foldl (packStep files cfg cw autoScale)
            ⟨s.freeRects, [], []⟩).freeRects,
          packed := s.packed ++ (items.foldl (packStep files cfg cw autoScale)
            ⟨s.freeRects, [], []⟩).packed,
          failed := s.failed ++ (items.foldl (packStep files cfg cw autoScale)
            ⟨s.freeRects, [], []⟩).failed } := by
  intro items
  induction items with
  | nil => intro s; simp
  | cons item items ih =>
    intro s
    rw [List.foldl_cons, List.foldl_cons,
      ih (packStep files cfg cw autoScale s item),
      ih (packStep files cfg cw autoScale (⟨s.freeRects, [], []⟩ : PackState) item),
      packStep_frame files cfg cw autoScale s item]
    simp [List.append_assoc]

/-- **C10** — When `pack` cannot place a candidate it returns `null` before
touching the free-rectangle list, so a "no space" failure mutates no packer
state: the free list after the call is exactly the list before it, and the
packing loop run on the remaining items produces the same placements and the
same final free list as if the failed item had never been attempted (the only
difference being the extra failure record). -/
theorem pack_failure_no_mutation (padding width height : ℚ) (allowRot : Bool)
    (frs : List Rect)
    (hfail : (MaxRectsPacker.pack padding width height allowRot frs).1 = none) :
    (MaxRectsPacker.pack padding width height allowRot frs).2 = frs ∧
    ∀ (files : List UploadedFile) (cfg : CanvasConfig) (cw : ℚ) (autoScale : Bool)
      (s : PackState) (item : Item) (rest : List Item),
      cfg.padding = padding → cfg.allowRotation = allowRot →
      s.freeRects = frs →
      (scaledDims cw cfg.padding autoScale item).1 = width →
      (scaledDims cw cfg.padding autoScale item).2 = height →
      ((item :: rest).foldl (packStep files cfg cw autoScale) s).packed =
        (rest.foldl (packStep files cfg cw autoScale) s).packed ∧
      ((item :: rest).foldl (packStep files cfg cw autoScale) s).freeRects =
        (rest.foldl (packStep files cfg cw autoScale) s).freeRects ∧
      ((item :: rest).foldl (packStep files cfg cw autoScale) s).failed =
        s.failed ++
          [⟨(files.find? fun f => f.id == item.id).getD ⟨item.id, none⟩,
            "No space available"⟩] ++
          ((rest.foldl (packStep files cfg cw autoScale)
            ⟨s.freeRects, [], []⟩).failed) := by
  refine ⟨pack_none hfail, ?_⟩
  intro files cfg cw autoScale s item rest hpad hrot hfrs hsw hsh
  have hp : MaxRectsPacker.pack cfg.padding
      (scaledDims cw cfg.padding autoScale item).1
      (scaledDims cw cfg.padding autoScale item).2
      cfg.allowRotation s.freeRects = (none, s.freeRects) := by
    rw [hsw, hsh, hpad, hrot, hfrs, Prod.ext_iff]
    exact ⟨hfail, pack_none hfail⟩
  have hstep : packStep files cfg cw autoScale s item =
      { s with failed := s.failed ++
          [⟨(files.find? fun f => f.id == item.id).getD ⟨item.id, none⟩,
            "No space available"⟩] } := packStep_of_no_fit hp
  rw [List.foldl_cons, hstep,
    packLoop_frame files cfg cw autoScale rest
      ({ s with failed := s.failed ++ [_] }),
    packLoop_frame files cfg cw autoScale rest s]
  exact ⟨rfl, rfl, by simp⟩

/-- Witness for C10 at a concrete input: a 5×5 candidate cannot be placed in
a single 1×1 free rectangle, and the free list is returned unchanged while
the remaining (empty) loop sees the identical state. -/
theorem pack_failure_no_mutation_witness :
    (MaxRectsPacker.pack 0 5 5 false [⟨0, 0, 1, 1⟩]).2 = [⟨0, 0, 1, 1⟩] ∧
    (([(⟨9, 5, 5⟩ : Item)].foldl (packStep [] ⟨1, 1, 1, 0, false⟩ 1 false)
        ⟨[⟨0, 0, 1, 1⟩], [], []⟩).packed =
      (([] : List Item).foldl (packStep [] ⟨1, 1, 1, 0, false⟩ 1 false)
        ⟨[⟨0, 0, 1, 1⟩], [], []⟩).packed) := by
  have h := pack_failure_no_mutation 0 5 5 false [⟨0, 0, 1, 1⟩]
    (by with_unfolding_all decide)
  refine ⟨h.1, ?_⟩
  have h2 := h.2 [] ⟨1, 1, 1, 0, false⟩ 1 false ⟨[⟨0, 0, 1, 1⟩], [], []⟩ ⟨9, 5, 5⟩ []
    rfl rfl rfl (by with_unfolding_all decide) (by with_unfolding_all decide)
  exact h2.1

/-! ## The auto-scale step (C7) -/

/-- **C7** — The auto-scale step leaves an item's dimensions untouched unless
its smaller side exceeds the allowed bound `canvasWidth - padding * 2`; when
it does, the single uniform factor `scale = allowedBound / min(w, h)` is
applied to both dimensions with floor truncation, so neither scaled dimension
exceeds the original (no upsampling) and the scaled smaller side is at most
the allowed bound. -/
theorem autoScale_contract (cw padding w h : ℚ)
    (hw : 0 < w) (hh : 0 < h) (hbound : 0 ≤ cw - padding * 2) :
    (min w h ≤ cw - padding * 2 → autoScaleStep cw padding w h = (w, h)) ∧
    (cw - padding * 2 < min w h →
      autoScaleStep cw padding w h =
        (((⌊w * ((cw - padding * 2) / min w h)⌋ : ℤ) : ℚ),
          ((⌊h * ((cw - padding * 2) / min w h)⌋ : ℤ) : ℚ)) ∧
      (autoScaleStep cw padding w h).1 ≤ w ∧
      (autoScaleStep cw padding w h).2 ≤ h ∧
      min (autoScaleStep cw padding w h).1 (autoScaleStep cw padding w h).2 ≤
        cw - padding * 2) := by
  constructor
  · intro hle
    have hguard : ¬ (min w h + padding * 2 > cw) := by
      simp only [not_lt]
      linarith
    simp [autoScaleStep, hguard]
  · intro hgt
    have hguard : min w h + padding * 2 > cw := by linarith
    have heq : autoScaleStep cw padding w h =
        (((⌊w * ((cw - padding * 2) / min w h)⌋ : ℤ) : ℚ),
          ((⌊h * ((cw - padding * 2) / min w h)⌋ : ℤ) : ℚ)) := by
      simp [autoScaleStep, hguard]
    have hm : 0 < min w h := lt_of_le_of_lt hbound hgt
    have hscale0 : 0 ≤ (cw - padding * 2) / min w h := div_nonneg hbound hm.le
    have hscale1 : (cw - padding * 2) / min w h ≤ 1 :=
      (div_le_one hm).mpr hgt.le
    have hfw : ((⌊w * ((cw - padding * 2) / min w h)⌋ : ℤ) : ℚ) ≤ w :=
      (Int.floor_le _).trans (by nlinarith)
    have hfh : ((⌊h * ((cw - padding * 2) / min w h)⌋ : ℤ) : ℚ) ≤ h :=
      (Int.floor_le _).trans (by nlinarith)
    have hmins : min ((⌊w * ((cw - padding * 2) / min w h)⌋ : ℤ) : ℚ)
        ((⌊h * ((cw - padding * 2) / min w h)⌋ : ℤ) : ℚ) ≤ cw - padding * 2 := by
      rcases min_cases w h with ⟨hmin, hwh⟩ | ⟨hmin, hwh⟩
      · refine (min_le_left _ _).trans ?_
        rw [hmin] at hm ⊢
        have : w * ((cw - padding * 2) / w) = cw - padding * 2 := by
          field_simp
        rw [this]
        exact Int.floor_le _
      · refine (min_le_right _ _).trans ?_
        rw [hmin] at hm ⊢
        have : h * ((cw - padding * 2) / h) = cw - padding * 2 := by
          field_simp
        rw [this]
        exact Int.floor_le _
    rw [heq]
    exact ⟨rfl, hfw, hfh, hmins⟩

/-! ## The sort phase (C5) -/

instance : IsTotal Item itemLE :=
  ⟨fun a b => (le_total (b.w * b.h) (a.w * a.h)).imp id id⟩

instance : IsTrans Item itemLE :=
  ⟨fun _ _ _ hab hbc => le_trans hbc hab⟩

/-- Counterexample to C5 as stated: the sort comparator of
`src/services/packer.ts` is `b.w * b.h - a.w * a.h` (area only), so the 5×4
item (area 20, max side 5) is placed before the 10×1 item (area 10, max side
10), although descending `max(width, height)` would demand the opposite
order. -/
theorem sortItems_not_by_max_side :
    sortItems [⟨0, 10, 1⟩, ⟨1, 5, 4⟩] = [⟨1, 5, 4⟩, ⟨0, 10, 1⟩] ∧
    max 5 4 < max 10 1 := by decide

/-- Filtering on one area value commutes with a single ordered insertion:
every element the insertion skips has strictly larger area than the inserted
one, so it cannot share its area value. -/
theorem orderedInsert_filter_area (a : Item) (l : List Item) (m : ℕ) :
    (l.orderedInsert itemLE a).filter (fun i => decide (i.w * i.h = m)) =
      if a.w * a.h = m then a :: l.filter (fun i => decide (i.w * i.h = m))
      else l.filter (fun i => decide (i.w * i.h = m)) := by
  induction l with
  | nil =>
    by_cases hm : a.w * a.h = m <;>
      simp [List.orderedInsert, List.filter_cons, hm]
  | cons b t ih =>
    by_cases hr : itemLE a b
    · rw [List.orderedInsert, if_pos hr]
      by_cases hm : a.w * a.h = m <;> simp [List.filter_cons, hm]
    · rw [List.orderedInsert, if_neg hr]
      have hbm : ¬ (b.w * b.h = m) ∨ ¬ (a.w * a.h = m) := by
        by_cases hm : a.w * a.h = m
        · exact Or.inl fun hb => hr (by rw [itemLE, hb, hm])
        · exact Or.inr hm
      by_cases hb : b.w * b.h = m
      · have ham : ¬ (a.w * a.h = m) := hbm.resolve_left (not_not_intro hb)
        simp [List.filter_cons, hb, ih, ham]
      · by_cases ham : a.w * a.h = m <;> simp [List.filter_cons, hb, ih, ham]

/-- **C5** (amended) — The sort phase of `src/services/packer.ts` orders the
prepared items by descending area `width × height` only (it has no
`max(width, height)` primary key — that key appears only in the orphan
`src/unnamed/part_001` variant), the output is a permutation of the input,
and the order is stable: items with equal area keep their relative input
order, so identical inputs always produce the same packing order. -/
theorem sortItems_area_descending_stable (items : List Item) :
    (sortItems items).Pairwise (fun a b => b.w * b.h ≤ a.w * a.h) ∧
    (sortItems items).Perm items ∧
    ∀ m : ℕ, (sortItems items).filter (fun i => decide (i.w * i.h = m)) =
      items.filter (fun i => decide (i.w * i.h = m)) := by
  refine ⟨List.sorted_insertionSort itemLE items, List.perm_insertionSort itemLE items, ?_⟩
  intro m
  induction items with
  | nil => rfl
  | cons a l ih =>
    show ((l.insertionSort itemLE).orderedInsert itemLE a).filter _ = _
    rw [orderedInsert_filter_area]
    simp only [sortItems] at ih
    by_cases hm : a.w * a.h = m
    · simp [List.filter_cons, hm, ih]
    · simp [List.filter_cons, hm, ih]

/-! ## Configuration validation (C8) -/

/-- **C8** — `packImages` performs no configuration validation.  Evaluating
the code at an invalid configuration (canvas width −1 cm, i.e. a negative
derived pixel width): the run does not fail fast with an error; it proceeds,
produces the result lists, and reports the (decodable) item as a normal
"No space available" failure.  The invalid value is not clamped: the derived
canvas width stays negative. -/
theorem packImages_accepts_invalid_config :
    (packImages [⟨1, some ⟨1, 1, fun _ _ => ⟨0, 0, 0, 255⟩⟩⟩]
      ⟨-1, 1, 300, 0, false⟩ false false).packed = [] ∧
    ((packImages [⟨1, some ⟨1, 1, fun _ _ => ⟨0, 0, 0, 255⟩⟩⟩]
      ⟨-1, 1, 300, 0, false⟩ false false).failed.map
        fun e => (e.file.id, e.reason)) = [(1, "No space available")] ∧
    canvasWidth ⟨-1, 1, 300, 0, false⟩ < 0 := by
  with_unfolding_all decide

/-! ## Conservation of the input files (C9) -/

/-- The `files.find(f => f.id === item.id)!` lookup in the failure branch
always produces a record with the item's id (the modelled default is also
given that id). -/
theorem find_getD_id (files : List UploadedFile) (i : ℕ) :
    ((files.find? fun f => f.id == i).getD ⟨i, none⟩).id = i := by
  cases hf : files.find? fun f => f.id == i with
  | none => rfl
  | some g =>
    have hg : g.id = i := by simpa using List.find?_some hf
    simp [hg]

/-- Each loop iteration contributes exactly its item's id to the combined
id bag of the two result lists. -/
theorem packLoop_ids (files : List UploadedFile) (cfg : CanvasConfig) (cw : ℚ)
    (autoScale : Bool) :
    ∀ (items : List Item) (s : PackState),
      (↑(((items.foldl (packStep files cfg cw autoScale) s).packed.map fun q => q.id) ++
          ((items.foldl (packStep files cfg cw autoScale) s).failed.map
            fun e => e.file.id)) : Multiset ℕ) =
      ↑((s.packed.map fun q => q.id) ++ (s.failed.map fun e => e.file.id)) +
        ↑(items.map fun i => i.id) := by
  intro items
  induction items with
  | nil => intro s; simp
  | cons item items ih =>
    intro s
    rw [List.foldl_cons, ih (packStep files cfg cw autoScale s item)]
    cases hp : MaxRectsPacker.pack cfg.padding
        (scaledDims cw cfg.padding autoScale item).1
        (scaledDims cw cfg.padding autoScale item).2
        cfg.allowRotation s.freeRects with
    | mk fit? frs' =>
    cases fit? with
    | some fit =>
      rw [packStep_of_fit hp]
      simp only [List.map_append, List.map_cons, List.map_nil, List.map,
        ← Multiset.coe_add, Multiset.coe_singleton, ← Multiset.cons_coe,
        ← Multiset.singleton_add]
      abel
    | none =>
      rw [packStep_of_no_fit hp]
      simp only [List.map_append, List.map_cons, List.map_nil, List.map,
        find_getD_id, ← Multiset.coe_add, Multiset.coe_singleton,
        ← Multiset.cons_coe, ← Multiset.singleton_add]
      abel

/-- The ids of the prepared items are exactly the ids of the files that
decoded successfully, in order. -/
theorem prepareItems_ids (shouldTrim : Bool) (files : List UploadedFile) :
    (prepareItems shouldTrim files).map (fun i => i.id) =
      (files.filter fun f => f.img.isSome).map fun f => f.id := by
  induction files with
  | nil => rfl
  | cons f files ih =>
    simp only [prepareItems] at ih ⊢
    cases himg : f.img with
    | none => simp [List.filterMap_cons, himg, List.filter_cons, ih]
    | some img => simp [List.filterMap_cons, himg, List.filter_cons, ih]

/-- The combined id bag of a full `packImages` run equals the id bag of the
files that decoded successfully. -/
theorem packImages_ids (files : List UploadedFile) (cfg : CanvasConfig)
    (autoScaleToFit shouldTrim : Bool) :
    (↑(((packImages files cfg autoScaleToFit shouldTrim).packed.map fun q => q.id) ++
        ((packImages files cfg autoScaleToFit shouldTrim).failed.map
          fun e => e.file.id)) : Multiset ℕ) =
      ↑((files.filter fun f => f.img.isSome).map fun f => f.id) := by
  have hids := packLoop_ids files cfg (canvasWidth cfg) autoScaleToFit
    (sortItems (prepareItems shouldTrim files)) (initState cfg)
  have h0 : (packImages files cfg autoScaleToFit shouldTrim).packed =
      ((sortItems (prepareItems shouldTrim files)).foldl
        (packStep files cfg (canvasWidth cfg) autoScaleToFit) (initState cfg)).packed :=
    rfl
  have h1 : (packImages files cfg autoScaleToFit shouldTrim).failed =
      ((sortItems (prepareItems shouldTrim files)).foldl
        (packStep files cfg (canvasWidth cfg) autoScaleToFit) (initState cfg)).failed :=
    rfl
  rw [h0, h1, hids]
  have hperm : ((sortItems (prepareItems shouldTrim files)).map fun i => i.id).Perm
      ((files.filter fun f => f.img.isSome).map fun f => f.id) := by
    rw [← prepareItems_ids shouldTrim files]
    exact (List.perm_insertionSort itemLE _).map _
  rw [show (initState cfg).packed = [] from rfl,
    show (initState cfg).failed = [] from rfl]
  simpa using Multiset.coe_eq_coe.mpr hperm

/-- **C9** — For every input file list: `|packed| + |failed| ≤ |files|`, with
equality when every file decodes; and when the file ids are pairwise distinct
(they are identifiers), every file id appears in at most one of the two
result lists and at most once, and a file whose decode fails appears in
neither list. -/
theorem packImages_conservation (files : List UploadedFile) (cfg : CanvasConfig)
    (autoScaleToFit shouldTrim : Bool) :
    (packImages files cfg autoScaleToFit shouldTrim).packed.length +
        (packImages files cfg autoScaleToFit shouldTrim).failed.length ≤
      files.length ∧
    ((∀ f ∈ files, f.img.isSome) →
      (packImages files cfg autoScaleToFit shouldTrim).packed.length +
          (packImages files cfg autoScaleToFit shouldTrim).failed.length =
        files.length) ∧
    ((files.map fun f => f.id).Nodup →
      (((packImages files cfg autoScaleToFit shouldTrim).packed.map fun q => q.id) ++
        ((packImages files cfg autoScaleToFit shouldTrim).failed.map
          fun e => e.file.id)).Nodup ∧
      ∀ f ∈ files, f.img = none →
        (∀ q ∈ (packImages files cfg autoScaleToFit shouldTrim).packed,
          q.id ≠ f.id) ∧
        (∀ e ∈ (packImages files cfg autoScaleToFit shouldTrim).failed,
          e.file.id ≠ f.id)) := by
  have hms := packImages_ids files cfg autoScaleToFit shouldTrim
  have hlen : (packImages files cfg autoScaleToFit shouldTrim).packed.length +
      (packImages files cfg autoScaleToFit shouldTrim).failed.length =
      (files.filter fun f => f.img.isSome).length := by
    have := congrArg Multiset.card hms
    simpa using this
  refine ⟨?_, ?_, ?_⟩
  · rw [hlen]
    exact files.length_filter_le _
  · intro hall
    rw [hlen]
    congr 1
    exact List.filter_eq_self.mpr fun f hf => hall f hf
  · intro hnd
    have hnd' : ((files.filter fun f => f.img.isSome).map fun f => f.id).Nodup :=
      ((List.filter_sublist files).map _).nodup hnd
    have hperm : (((packImages files cfg autoScaleToFit shouldTrim).packed.map
        fun q => q.id) ++
        ((packImages files cfg autoScaleToFit shouldTrim).failed.map
          fun e => e.file.id)).Perm
        ((files.filter fun f => f.img.isSome).map fun f => f.id) :=
      Multiset.coe_eq_coe.mp hms
    refine ⟨hperm.nodup_iff.mpr hnd', ?_⟩
    intro f hf himg
    have hnomem : f.id ∉ ((files.filter fun f => f.img.isSome).map fun f => f.id) := by
      intro hmem
      obtain ⟨g, hgmem, hgid⟩ := List.mem_map.mp hmem
      have hgf : g ∈ files := (List.mem_filter.mp hgmem).1
      have hgs : g.img.isSome := (List.mem_filter.mp hgmem).2
      have : g = f := List.inj_on_of_nodup_map hnd hgf hf hgid
      rw [this, himg] at hgs
      exact Bool.false_ne_true hgs
    constructor
    · intro q hq hqid
      exact hnomem (hperm.mem_iff.mp (List.mem_append_left _
        (hqid ▸ List.mem_map_of_mem _ hq)))
    · intro e he heid
      exact hnomem (hperm.mem_iff.mp (List.mem_append_right _
        (heid ▸ List.mem_map_of_mem _ he)))

/-- Witness for C9 at a concrete input: two files with distinct ids, one
decodable 2×2 bitmap and one decode failure, on a 10×10-pixel canvas. -/
theorem packImages_conservation_witness :
    ((packImages [⟨3, some ⟨2, 2, fun _ _ => ⟨0, 0, 0, 7⟩⟩⟩, ⟨4, none⟩]
          ⟨2.54, 2.54, 10, 0, false⟩ true true).packed.length +
        (packImages [⟨3, some ⟨2, 2, fun _ _ => ⟨0, 0, 0, 7⟩⟩⟩, ⟨4, none⟩]
          ⟨2.54, 2.54, 10, 0, false⟩ true true).failed.length ≤ 2) ∧
    (((packImages [⟨3, some ⟨2, 2, fun _ _ => ⟨0, 0, 0, 7⟩⟩⟩, ⟨4, none⟩]
          ⟨2.54, 2.54, 10, 0, false⟩ true true).packed.map fun q => q.id) ++
        ((packImages [⟨3, some ⟨2, 2, fun _ _ => ⟨0, 0, 0, 7⟩⟩⟩, ⟨4, none⟩]
          ⟨2.54, 2.54, 10, 0, false⟩ true true).failed.map
            fun e => e.file.id)).Nodup := by
  have h := packImages_conservation
    [⟨3, some ⟨2, 2, fun _ _ => ⟨0, 0, 0, 7⟩⟩⟩, ⟨4, none⟩]
    ⟨2.54, 2.54, 10, 0, false⟩ true true
  exact ⟨h.1, (h.2.2 (by decide)).1⟩

/-! ## The trimmer (C6) -/

/-- A coordinate pair carries a pixel whose alpha channel exceeds zero. -/
def OpaqueAt (img : Bitmap) (p : ℕ × ℕ) : Prop := 0 < (img.pix p.1 p.2).a

instance (img : Bitmap) (p : ℕ × ℕ) : Decidable (OpaqueAt img p) :=
  inferInstanceAs (Decidable (_ < _))

theorem mem_scanPoints {w h : ℕ} {p : ℕ × ℕ} :
    p ∈ scanPoints w h ↔ p.1 < w ∧ p.2 < h := by
  obtain ⟨x, y⟩ := p
  simp only [scanPoints, List.mem_flatMap, List.mem_map, List.mem_range,
    Prod.mk.injEq]
  constructor
  · rintro ⟨y', hy', x', hx', rfl, rfl⟩
    exact ⟨hx', hy'⟩
  · rintro ⟨hx, hy⟩
    exact ⟨y, hy, x, hx, rfl, rfl⟩

/-- What one run of the alpha-scan fold guarantees, relative to its starting
state: the `found` flag, monotone shrinking of the box bounds, the bounds
covering every opaque visited pixel, and each final bound being either
untouched or attained at an opaque visited pixel. -/
structure ScanOut (img : Bitmap) (pts : List (ℕ × ℕ)) (s t : TrimScan) : Prop where
  found_iff : t.found = true ↔ (s.found = true ∨ ∃ p ∈ pts, OpaqueAt img p)
  left_le : t.left ≤ s.left
  right_ge : s.right ≤ t.right
  top_le : t.top ≤ s.top
  bottom_ge : s.bottom ≤ t.bottom
  bounds : ∀ p ∈ pts, OpaqueAt img p →
    t.left ≤ p.1 ∧ p.1 ≤ t.right ∧ t.top ≤ p.2 ∧ p.2 ≤ t.bottom
  attain_left : t.left = s.left ∨ ∃ p ∈ pts, OpaqueAt img p ∧ p.1 = t.left
  attain_right : t.right = s.right ∨ ∃ p ∈ pts, OpaqueAt img p ∧ p.1 = t.right
  attain_top : t.top = s.top ∨ ∃ p ∈ pts, OpaqueAt img p ∧ p.2 = t.top
  attain_bottom : t.bottom = s.bottom ∨ ∃ p ∈ pts, OpaqueAt img p ∧ p.2 = t.bottom

theorem scanOut_foldl (img : Bitmap) :
    ∀ (pts : List (ℕ × ℕ)) (s : TrimScan),
      ScanOut img pts s (pts.foldl (trimScanStep img) s) := by
  intro pts
  induction pts with
  | nil =>
    intro s
    exact ⟨by simp, le_refl _, le_refl _, le_refl _, le_refl _,
      fun p hp => absurd hp (List.not_mem_nil p),
      Or.inl rfl, Or.inl rfl, Or.inl rfl, Or.inl rfl⟩
  | cons p0 rest ih =>
    intro s
    rw [List.foldl_cons]
    by_cases hop : OpaqueAt img p0
    · have hs' : trimScanStep img s p0 =
          ⟨min s.top p0.2, max s.bottom p0.2, min s.left p0.1,
            max s.right p0.1, true⟩ := by
        rw [trimScanStep, if_pos (show 0 < (img.pix p0.1 p0.2).a from hop)]
      rw [hs']
      obtain ⟨f_iff, l_le, r_ge, t_le, b_ge, bnds, a_l, a_r, a_t, a_b⟩ :=
        ih ⟨min s.top p0.2, max s.bottom p0.2, min s.left p0.1,
          max s.right p0.1, true⟩
      refine ⟨?_, ?_, ?_, ?_, ?_, ?_, ?_, ?_, ?_, ?_⟩
      · rw [f_iff]
        constructor
        · intro _
          exact Or.inr ⟨p0, List.mem_cons_self _ _, hop⟩
        · intro _
          exact Or.inl rfl
      · exact l_le.trans (min_le_left _ _)
      · exact (le_max_left s.right p0.1).trans r_ge
      · exact t_le.trans (min_le_left _ _)
      · exact (le_max_left s.bottom p0.2).trans b_ge
      · intro p hp hpo
        rcases List.mem_cons.mp hp with rfl | hp
        · exact ⟨l_le.trans (min_le_right _ _), (le_max_right _ _).trans r_ge,
            t_le.trans (min_le_right _ _), (le_max_right _ _).trans b_ge⟩
        · exact bnds p hp hpo
      · rcases a_l with h | ⟨p, hp, hpo, hpe⟩
        · rcases min_cases s.left p0.1 with ⟨hm, -⟩ | ⟨hm, -⟩
          · exact Or.inl (h.trans hm)
          · exact Or.inr ⟨p0, List.mem_cons_self _ _, hop, (h.trans hm).symm⟩
        · exact Or.inr ⟨p, List.mem_cons_of_mem _ hp, hpo, hpe⟩
      · rcases a_r with h | ⟨p, hp, hpo, hpe⟩
        · rcases max_cases s.right p0.1 with ⟨hm, -⟩ | ⟨hm, -⟩
          · exact Or.inl (h ▸ hm)
          · exact Or.inr ⟨p0, List.mem_cons_self _ _, hop, (h ▸ hm : _ = _).symm⟩
        · exact Or.inr ⟨p, List.mem_cons_of_mem _ hp, hpo, hpe⟩
      · rcases a_t with h | ⟨p, hp, hpo, hpe⟩
        · rcases min_cases s.top p0.2 with ⟨hm, -⟩ | ⟨hm, -⟩
          · exact Or.inl (h.trans hm)
          · exact Or.inr ⟨p0, List.mem_cons_self _ _, hop, (h.trans hm).symm⟩
        · exact Or.inr ⟨p, List.mem_cons_of_mem _ hp, hpo, hpe⟩
      · rcases a_b with h | ⟨p, hp, hpo, hpe⟩
        · rcases max_cases s.bottom p0.2 with ⟨hm, -⟩ | ⟨hm, -⟩
          · exact Or.inl (h ▸ hm)
          · exact Or.inr ⟨p0, List.mem_cons_self _ _, hop, (h ▸ hm : _ = _).symm⟩
        · exact Or.inr ⟨p, List.mem_cons_of_mem _ hp, hpo, hpe⟩
    · have hs' : trimScanStep img s p0 = s := by
        rw [trimScanStep, if_neg (show ¬ 0 < (img.pix p0.1 p0.2).a from hop)]
      rw [hs']
      obtain ⟨f_iff, l_le, r_ge, t_le, b_ge, bnds, a_l, a_r, a_t, a_b⟩ := ih s
      refine ⟨?_, l_le, r_ge, t_le, b_ge, ?_, ?_, ?_, ?_, ?_⟩
      · rw [f_iff]
        constructor
        · rintro (h | ⟨p, hp, hpo⟩)
          · exact Or.inl h
          · exact Or.inr ⟨p, List.mem_cons_of_mem _ hp, hpo⟩
        · rintro (h | ⟨p, hp, hpo⟩)
          · exact Or.inl h
          · rcases List.mem_cons.mp hp with rfl | hp
            · exact absurd hpo hop
            · exact Or.inr ⟨p, hp, hpo⟩
      · intro p hp hpo
        rcases List.mem_cons.mp hp with rfl | hp
        · exact absurd hpo hop
        · exact bnds p hp hpo
      · exact a_l.imp id fun ⟨p, hp, hpo, hpe⟩ =>
          ⟨p, List.mem_cons_of_mem _ hp, hpo, hpe⟩
      · exact a_r.imp id fun ⟨p, hp, hpo, hpe⟩ =>
          ⟨p, List.mem_cons_of_mem _ hp, hpo, hpe⟩
      · exact a_t.imp id fun ⟨p, hp, hpo, hpe⟩ =>
          ⟨p, List.mem_cons_of_mem _ hp, hpo, hpe⟩
      · exact a_b.imp id fun ⟨p, hp, hpo, hpe⟩ =>
          ⟨p, List.mem_cons_of_mem _ hp, hpo, hpe⟩

/-- **C6** — `trimTransparent` computes the bounding box of exactly the
pixels whose alpha channel exceeds zero: when no pixel qualifies it returns
the input bitmap unchanged and uncropped; otherwise it returns a new bitmap
of size `(R-L+1) × (B-T+1)` containing exactly the sub-region `[L,R] × [T,B]`
of the input, where the box bounds every opaque pixel and each of its four
edges is attained by an opaque pixel. -/
theorem trimTransparent_bbox (img : Bitmap) :
    ((∀ x, x < img.width → ∀ y, y < img.height → (img.pix x y).a = 0) →
      trimTransparent img = img) ∧
    (∀ x0 y0, x0 < img.width → y0 < img.height → 0 < (img.pix x0 y0).a →
      ∃ L T R B,
        (∀ x y, x < img.width → y < img.height → 0 < (img.pix x y).a →
          L ≤ x ∧ x ≤ R ∧ T ≤ y ∧ y ≤ B) ∧
        (∃ x y, x < img.width ∧ y < img.height ∧ 0 < (img.pix x y).a ∧ x = L) ∧
        (∃ x y, x < img.width ∧ y < img.height ∧ 0 < (img.pix x y).a ∧ x = R) ∧
        (∃ x y, x < img.width ∧ y < img.height ∧ 0 < (img.pix x y).a ∧ y = T) ∧
        (∃ x y, x < img.width ∧ y < img.height ∧ 0 < (img.pix x y).a ∧ y = B) ∧
        trimTransparent img =
          { width := R - L + 1, height := B - T + 1,
            pix := fun x y => img.pix (x + L) (y + T) }) := by
  have out : ScanOut img (scanPoints img.width img.height)
      ⟨img.height, 0, img.width, 0, false⟩ (trimScan img) :=
    scanOut_foldl img (scanPoints img.width img.height)
      ⟨img.height, 0, img.width, 0, false⟩
  constructor
  · intro hall
    have hnone : ¬ ∃ p ∈ scanPoints img.width img.height, OpaqueAt img p := by
      rintro ⟨p, hp, hpo⟩
      obtain ⟨hx, hy⟩ := mem_scanPoints.mp hp
      exact absurd (hall p.1 hx p.2 hy) (Nat.pos_iff_ne_zero.mp hpo)
    have hfound : (trimScan img).found = false := by
      rcases hb : (trimScan img).found with _ | _
      · rfl
      · rcases out.found_iff.mp hb with h | h
        · exact absurd h (by simp)
        · exact absurd h hnone
    simp [trimTransparent, hfound]
  · intro x0 y0 hx0 hy0 hop
    have hmem : ((x0, y0) : ℕ × ℕ) ∈ scanPoints img.width img.height :=
      mem_scanPoints.mpr ⟨hx0, hy0⟩
    have hfound : (trimScan img).found = true :=
      out.found_iff.mpr (Or.inr ⟨(x0, y0), hmem, hop⟩)
    refine ⟨(trimScan img).left, (trimScan img).top, (trimScan img).right,
      (trimScan img).bottom, ?_, ?_, ?_, ?_, ?_, ?_⟩
    · intro x y hx hy hxy
      exact out.bounds (x, y) (mem_scanPoints.mpr ⟨hx, hy⟩) hxy
    · rcases out.attain_left with h | ⟨p, hp, hpo, hpe⟩
      · have h' : (trimScan img).left = img.width := h
        have hb := (out.bounds (x0, y0) hmem hop).1
        rw [h'] at hb
        exact absurd hx0 (not_lt.mpr hb)
      · obtain ⟨hx, hy⟩ := mem_scanPoints.mp hp
        exact ⟨p.1, p.2, hx, hy, hpo, hpe⟩
    · rcases out.attain_right with h | ⟨p, hp, hpo, hpe⟩
      · have h' : (trimScan img).right = 0 := h
        have hb := (out.bounds (x0, y0) hmem hop).2.1
        rw [h'] at hb
        rw [h']
        exact ⟨x0, y0, hx0, hy0, hop, by omega⟩
      · obtain ⟨hx, hy⟩ := mem_scanPoints.mp hp
        exact ⟨p.1, p.2, hx, hy, hpo, hpe⟩
    · rcases out.attain_top with h | ⟨p, hp, hpo, hpe⟩
      · have h' : (trimScan img).top = img.height := h
        have hb := (out.bounds (x0, y0) hmem hop).2.2.1
        rw [h'] at hb
        exact absurd hy0 (not_lt.mpr hb)
      · obtain ⟨hx, hy⟩ := mem_scanPoints.mp hp
        exact ⟨p.1, p.2, hx, hy, hpo, hpe⟩
    · rcases out.attain_bottom with h | ⟨p, hp, hpo, hpe⟩
      · have h' : (trimScan img).bottom = 0 := h
        have hb := (out.bounds (x0, y0) hmem hop).2.2.2
        rw [h'] at hb
        rw [h']
        exact ⟨x0, y0, hx0, hy0, hop, by omega⟩
      · obtain ⟨hx, hy⟩ := mem_scanPoints.mp hp
        exact ⟨p.1, p.2, hx, hy, hpo, hpe⟩
    · simp [trimTransparent, hfound]

/-- Witness for C6 at two concrete inputs: a fully transparent 2×2 bitmap is
returned unchanged, and a 2×2 bitmap whose second row is opaque has a tight
bounding box. -/
theorem trimTransparent_bbox_witness :
    (trimTransparent ⟨2, 2, fun _ _ => ⟨0, 0, 0, 0⟩⟩ =
      ⟨2, 2, fun _ _ => ⟨0, 0, 0, 0⟩⟩) ∧
    (∃ L T R B,
      (∀ x y, x < (⟨2, 2, fun _ y => if y = 1 then ⟨0, 0, 0, 5⟩ else
          ⟨0, 0, 0, 0⟩⟩ : Bitmap).width →
        y < (⟨2, 2, fun _ y => if y = 1 then ⟨0, 0, 0, 5⟩ else
          ⟨0, 0, 0, 0⟩⟩ : Bitmap).height →
        0 < ((⟨2, 2, fun _ y => if y = 1 then ⟨0, 0, 0, 5⟩ else
          ⟨0, 0, 0, 0⟩⟩ : Bitmap).pix x y).a →
        L ≤ x ∧ x ≤ R ∧ T ≤ y ∧ y ≤ B) ∧
      (∃ x y, x < 2 ∧ y < 2 ∧
        0 < ((⟨2, 2, fun _ y => if y = 1 then ⟨0, 0, 0, 5⟩ else
          ⟨0, 0, 0, 0⟩⟩ : Bitmap).pix x y).a ∧ x = L) ∧
      (∃ x y, x < 2 ∧ y < 2 ∧
        0 < ((⟨2, 2, fun _ y => if y = 1 then ⟨0, 0, 0, 5⟩ else
          ⟨0, 0, 0, 0⟩⟩ : Bitmap).pix x y).a ∧ x = R) ∧
      (∃ x y, x < 2 ∧ y < 2 ∧
        0 < ((⟨2, 2, fun _ y => if y = 1 then ⟨0, 0, 0, 5⟩ else
          ⟨0, 0, 0, 0⟩⟩ : Bitmap).pix x y).a ∧ y = T) ∧
      (∃ x y, x < 2 ∧ y < 2 ∧
        0 < ((⟨2, 2, fun _ y => if y = 1 then ⟨0, 0, 0, 5⟩ else
          ⟨0, 0, 0, 0⟩⟩ : Bitmap).pix x y).a ∧ y = B) ∧
      trimTransparent ⟨2, 2, fun _ y => if y = 1 then ⟨0, 0, 0, 5⟩ else
          ⟨0, 0, 0, 0⟩⟩ =
        { width := R - L + 1, height := B - T + 1,
          pix := fun x y =>
            (⟨2, 2, fun _ y => if y = 1 then ⟨0, 0, 0, 5⟩ else
              ⟨0, 0, 0, 0⟩⟩ : Bitmap).pix (x + L) (y + T) }) :=
  ⟨(trimTransparent_bbox ⟨2, 2, fun _ _ => ⟨0, 0, 0, 0⟩⟩).1
      (by intro x _ y _; rfl),
   (trimTransparent_bbox ⟨2, 2, fun _ y => if y = 1 then ⟨0, 0, 0, 5⟩ else
      ⟨0, 0, 0, 0⟩⟩).2 0 1 (by decide) (by decide) (by decide)⟩

/-- Witness for C7 at a concrete input: canvas width 10, padding 1 (allowed
bound 8), item 20×30; the step activates and floors both scaled dimensions. -/
theorem autoScale_contract_witness :
    autoScaleStep 10 1 20 30 =
      (((⌊(20 : ℚ) * ((10 - 1 * 2) / min 20 30)⌋ : ℤ) : ℚ),
        ((⌊(30 : ℚ) * ((10 - 1 * 2) / min 20 30)⌋ : ℤ) : ℚ)) ∧
    (autoScaleStep 10 1 20 30).1 ≤ 20 ∧
    (autoScaleStep 10 1 20 30).2 ≤ 30 ∧
    min (autoScaleStep 10 1 20 30).1 (autoScaleStep 10 1 20 30).2 ≤ 10 - 1 * 2 :=
  (autoScale_contract 10 1 20 30 (by with_unfolding_all decide)
    (by with_unfolding_all decide) (by with_unfolding_all decide)).2
    (by with_unfolding_all decide)

/-! ## The free-space region invariant (C2) -/

/-- The half-open region of the plane covered by a rectangle; rectangles of
non-positive extent cover nothing. -/
def rectRegion (r : Rect) : Set (ℚ × ℚ) :=
  {p | r.x ≤ p.1 ∧ p.1 < r.x + r.w ∧ r.y ≤ p.2 ∧ p.2 < r.y + r.h}

/-- The area covered by a list of rectangles. -/
def listRegion (l : List Rect) : Set (ℚ × ℚ) := ⋃ r ∈ l, rectRegion r

theorem mem_listRegion {l : List Rect} {p : ℚ × ℚ} :
    p ∈ listRegion l ↔ ∃ r ∈ l, p ∈ rectRegion r := by
  simp [listRegion]

theorem listRegion_nil : listRegion [] = ∅ := by
  simp [listRegion]

theorem listRegion_cons (r : Rect) (l : List Rect) :
    listRegion (r :: l) = rectRegion r ∪ listRegion l := by
  simp [listRegion]

theorem listRegion_append (l1 l2 : List Rect) :
    listRegion (l1 ++ l2) = listRegion l1 ∪ listRegion l2 := by
  ext p
  simp only [Set.mem_union, mem_listRegion, List.mem_append]
  constructor
  · rintro ⟨r, h | h, hp⟩
    · exact Or.inl ⟨r, h, hp⟩
    · exact Or.inr ⟨r, h, hp⟩
  · rintro (⟨r, h, hp⟩ | ⟨r, h, hp⟩)
    · exact ⟨r, Or.inl h, hp⟩
    · exact ⟨r, Or.inr h, hp⟩

theorem rectRegion_subset_of_insideOf {r f : Rect} (h : r.insideOf f) :
    rectRegion r ⊆ rectRegion f := by
  obtain ⟨h1, h2, h3, h4⟩ := h
  rintro ⟨px, py⟩ ⟨m1, m2, m3, m4⟩
  exact ⟨by linarith, by linarith, by linarith, by linarith⟩

/-- Two rectangles that fail the source's intersection test cover disjoint
regions. -/
theorem not_overlaps_region {a b : Rect} (h : ¬ a.overlaps b) {p : ℚ × ℚ}
    (hpa : p ∈ rectRegion a) (hpb : p ∈ rectRegion b) : False := by
  obtain ⟨a1, a2, a3, a4⟩ := hpa
  obtain ⟨b1, b2, b3, b4⟩ := hpb
  exact h ⟨by linarith, by linarith, by linarith, by linarith⟩

/-- The residual slivers of one split cover exactly the part of the free
rectangle not covered by the used one. -/
theorem splitOne_region {used free : Rect} (hov : used.overlaps free) :
    listRegion (MaxRectsPacker.splitOne used free) =
      rectRegion free \ rectRegion used := by
  obtain ⟨h1, h2, h3, h4⟩ := hov
  apply Set.Subset.antisymm
  · intro p hp
    obtain ⟨s, hs, hps⟩ := mem_listRegion.mp hp
    refine ⟨rectRegion_subset_of_insideOf
      (splitOne_insideOf ⟨h1, h2, h3, h4⟩ s hs) hps, ?_⟩
    intro hpu
    exact not_overlaps_region (splitOne_not_overlaps used free s hs) hpu hps
  · rintro ⟨px, py⟩ ⟨⟨hf1, hf2, hf3, hf4⟩, hnu⟩
    apply mem_listRegion.mpr
    by_cases cx1 : px < used.x
    · have hc : used.x > free.x := lt_of_le_of_lt hf1 cx1
      refine ⟨⟨free.x, free.y, used.x - free.x, free.h⟩, ?_, ?_⟩
      · simp [MaxRectsPacker.splitOne, hc]
      · exact ⟨hf1, by dsimp; linarith, hf3, by dsimp; linarith⟩
    · by_cases cx2 : used.x + used.w ≤ px
      · have hc : used.x + used.w < free.x + free.w := lt_of_le_of_lt cx2 hf2
        refine ⟨⟨used.x + used.w, free.y,
          free.x + free.w - (used.x + used.w), free.h⟩, ?_, ?_⟩
        · simp [MaxRectsPacker.splitOne, hc]
        · exact ⟨cx2, by dsimp; linarith, hf3, by dsimp; linarith⟩
      · by_cases cy1 : py < used.y
        · have hc : used.y > free.y := lt_of_le_of_lt hf3 cy1
          refine ⟨⟨free.x, free.y, free.w, used.y - free.y⟩, ?_, ?_⟩
          · simp [MaxRectsPacker.splitOne, hc]
          · exact ⟨hf1, by dsimp; linarith, hf3, by dsimp; linarith⟩
        · by_cases cy2 : used.y + used.h ≤ py
          · have hc : used.y + used.h < free.y + free.h := lt_of_le_of_lt cy2 hf4
            refine ⟨⟨free.x, used.y + used.h, free.w,
              free.y + free.h - (used.y + used.h)⟩, ?_, ?_⟩
            · simp [MaxRectsPacker.splitOne, hc]
            · exact ⟨hf1, by dsimp; linarith, cy2, by dsimp; linarith⟩
          · exact absurd ⟨not_lt.mp cx1, not_le.mp cx2, not_lt.mp cy1,
              not_le.mp cy2⟩ hnu

theorem mem_splitFreeRects_iff {used : Rect} {frs : List Rect} {f : Rect} :
    f ∈ MaxRectsPacker.splitFreeRects used frs ↔
    ((f ∈ frs ∧ ¬ used.overlaps f) ∨
      ∃ g ∈ frs, used.overlaps g ∧ f ∈ MaxRectsPacker.splitOne used g) := by
  simp only [MaxRectsPacker.splitFreeRects, List.mem_append, List.mem_filter,
    List.mem_flatMap, Bool.not_eq_eq_eq_not, Bool.not_true, decide_eq_false_iff_not,
    decide_eq_true_eq]
  constructor
  · rintro (⟨ha, hb⟩ | ⟨g, ⟨hg1, hg2⟩, hg3⟩)
    · exact Or.inl ⟨ha, hb⟩
    · exact Or.inr ⟨g, hg1, hg2, hg3⟩
  · rintro (⟨ha, hb⟩ | ⟨g, hg1, hg2, hg3⟩)
    · exact Or.inl ⟨ha, hb⟩
    · exact Or.inr ⟨g, ⟨hg1, hg2⟩, hg3⟩

/-- The split step removes exactly the used rectangle's region from the
covered area. -/
theorem splitFreeRects_region (used : Rect) (frs : List Rect) :
    listRegion (MaxRectsPacker.splitFreeRects used frs) =
      listRegion frs \ rectRegion used := by
  apply Set.Subset.antisymm
  · intro p hp
    obtain ⟨f, hf, hpf⟩ := mem_listRegion.mp hp
    rcases mem_splitFreeRects_iff.mp hf with ⟨hmem, hno⟩ | ⟨g, hg, hov, hsl⟩
    · exact ⟨mem_listRegion.mpr ⟨f, hmem, hpf⟩,
        fun hpu => not_overlaps_region hno hpu hpf⟩
    · have := (splitOne_region hov).le (mem_listRegion.mpr ⟨f, hsl, hpf⟩)
      exact ⟨mem_listRegion.mpr ⟨g, hg, this.1⟩, this.2⟩
  · rintro p ⟨hpf, hnu⟩
    obtain ⟨f, hf, hpf⟩ := mem_listRegion.mp hpf
    by_cases hov : used.overlaps f
    · have : p ∈ listRegion (MaxRectsPacker.splitOne used f) :=
        (splitOne_region hov).ge ⟨hpf, hnu⟩
      obtain ⟨s, hs, hps⟩ := mem_listRegion.mp this
      exact mem_listRegion.mpr ⟨s,
        mem_splitFreeRects_iff.mpr (Or.inr ⟨f, hf, hov, hs⟩), hps⟩
    · exact mem_listRegion.mpr ⟨f,
        mem_splitFreeRects_iff.mpr (Or.inl ⟨hf, hov⟩), hpf⟩

/-- Each inner-loop removal of `pruneFreeRects` drops only rectangles covered
by a surviving one, so (relative to the outer rectangle) the covered area is
unchanged; and when the outer rectangle itself is removed, some remaining
rectangle covers it. -/
theorem pruneInner_region (r1 : Rect) (l : List Rect) :
    (rectRegion r1 ∪ listRegion (MaxRectsPacker.pruneInner r1 l).2 =
      rectRegion r1 ∪ listRegion l) ∧
    ((MaxRectsPacker.pruneInner r1 l).1 = false →
      ∃ r2 ∈ (MaxRectsPacker.pruneInner r1 l).2, rectRegion r1 ⊆ rectRegion r2) := by
  induction l with
  | nil =>
    refine ⟨rfl, ?_⟩
    intro h
    rw [MaxRectsPacker.pruneInner] at h
    cases h
  | cons r2 rest ih =>
    by_cases h1 : r2.insideOf r1
    · simp only [MaxRectsPacker.pruneInner, if_pos h1]
      refine ⟨?_, ih.2⟩
      rw [listRegion_cons, ← Set.union_assoc,
        Set.union_eq_self_of_subset_right (rectRegion_subset_of_insideOf h1)]
      exact ih.1
    · by_cases h2 : r1.insideOf r2
      · simp only [MaxRectsPacker.pruneInner, if_neg h1, if_pos h2]
        refine ⟨by trivial, ?_⟩
        intro _
        exact ⟨r2, List.mem_cons_self _ _, rectRegion_subset_of_insideOf h2⟩
      · simp only [MaxRectsPacker.pruneInner, if_neg h1, if_neg h2]
        constructor
        · rw [listRegion_cons, listRegion_cons, Set.union_left_comm, ih.1,
            Set.union_left_comm]
        · intro h
          obtain ⟨r', hr', hsub⟩ := ih.2 h
          exact ⟨r', List.mem_cons_of_mem _ hr', hsub⟩

/-- The prune step never changes the covered area. -/
theorem pruneFreeRects_region : ∀ l : List Rect,
    listRegion (MaxRectsPacker.pruneFreeRects l) = listRegion l
  | [] => by rw [MaxRectsPacker.pruneFreeRects]
  | r1 :: rest => by
    rw [MaxRectsPacker.pruneFreeRects]
    split
    · rw [listRegion_cons,
        pruneFreeRects_region (MaxRectsPacker.pruneInner r1 rest).2,
        listRegion_cons]
      exact (pruneInner_region r1 rest).1
    · next hp =>
      rw [pruneFreeRects_region (MaxRectsPacker.pruneInner r1 rest).2,
        listRegion_cons]
      have hfalse : (MaxRectsPacker.pruneInner r1 rest).1 = false := by
        simpa using hp
      obtain ⟨r', hr', hsub⟩ := (pruneInner_region r1 rest).2 hfalse
      have habs : rectRegion r1 ⊆
          listRegion (MaxRectsPacker.pruneInner r1 rest).2 :=
        hsub.trans fun p hp' => mem_listRegion.mpr ⟨r', hr', hp'⟩
      rw [← (pruneInner_region r1 rest).1,
        Set.union_eq_self_of_subset_left habs]
termination_by l => l.length
decreasing_by
  all_goals
    simp_wf
    exact Nat.lt_succ_of_le (MaxRectsPacker.pruneInner_length_le _ _)

/-- The canvas rectangle, i.e. the packer's initial free rectangle. -/
def canvasRect (cfg : CanvasConfig) : Rect :=
  ⟨0, 0, canvasWidth cfg, canvasHeight cfg⟩

/-- One packing step preserves the exact-coverage equation: the free
rectangles cover exactly the canvas area not covered by any placed inflated
footprint. -/
theorem packStep_region {files : List UploadedFile} {cfg : CanvasConfig}
    {cw : ℚ} {autoScale : Bool} {s : PackState} {item : Item}
    (hinv : listRegion s.freeRects =
      rectRegion (canvasRect cfg) \
        listRegion (s.packed.map (inflate cfg.padding))) :
    listRegion (packStep files cfg cw autoScale s item).freeRects =
      rectRegion (canvasRect cfg) \
        listRegion ((packStep files cfg cw autoScale s item).packed.map
          (inflate cfg.padding)) := by
  cases hp : MaxRectsPacker.pack cfg.padding
      (scaledDims cw cfg.padding autoScale item).1
      (scaledDims cw cfg.padding autoScale item).2
      cfg.allowRotation s.freeRects with
  | mk fit? frs' =>
  cases fit? with
  | none =>
    rw [packStep_of_no_fit hp]
    exact hinv
  | some fit =>
    rw [packStep_of_fit hp]
    obtain ⟨b, hfb, hfit_eq, hfrs'⟩ := pack_some hp
    have hinfl : inflate cfg.padding
        { id := item.id,
          width := if fit.rotated then (scaledDims cw cfg.padding autoScale item).2
            else (scaledDims cw cfg.padding autoScale item).1,
          height := if fit.rotated then (scaledDims cw cfg.padding autoScale item).1
            else (scaledDims cw cfg.padding autoScale item).2,
          x := fit.x + cfg.padding,
          y := fit.y + cfg.padding,
          rotated := fit.rotated,
          originalWidth := item.w,
          originalHeight := item.h } =
        MaxRectsPacker.usedRect cfg.padding
          (scaledDims cw cfg.padding autoScale item).1
          (scaledDims cw cfg.padding autoScale item).2 b := by
      rw [hfit_eq]
      exact inflate_eq_usedRect cfg.padding _ _ b item.id item.w item.h
    dsimp only
    rw [hfrs', pruneFreeRects_region, splitFreeRects_region, hinv,
      List.map_append, List.map_cons, List.map_nil, listRegion_append,
      listRegion_cons, listRegion_nil, Set.union_empty, hinfl, Set.diff_diff]

/-- The exact-coverage equation holds after every prefix of the packing
loop. -/
theorem packRun_region (files : List UploadedFile) (cfg : CanvasConfig)
    (autoScaleToFit shouldTrim : Bool) (n : ℕ) :
    listRegion (packRunState files cfg autoScaleToFit shouldTrim n).freeRects =
      rectRegion (canvasRect cfg) \
        listRegion ((packRunState files cfg autoScaleToFit shouldTrim n).packed.map
          (inflate cfg.padding)) := by
  have hfold : ∀ (items : List Item) (s : PackState),
      listRegion s.freeRects =
        rectRegion (canvasRect cfg) \
          listRegion (s.packed.map (inflate cfg.padding)) →
      listRegion ((items.foldl (packStep files cfg (canvasWidth cfg)
          autoScaleToFit) s).freeRects) =
        rectRegion (canvasRect cfg) \
          listRegion (((items.foldl (packStep files cfg (canvasWidth cfg)
            autoScaleToFit) s).packed).map (inflate cfg.padding)) := by
    intro items
    induction items with
    | nil => intro s h; exact h
    | cons item items ih =>
      intro s h
      rw [List.foldl_cons]
      exact ih _ (packStep_region h)
  refine hfold _ _ ?_
  show listRegion (MaxRectsPacker.initFreeRects (canvasWidth cfg)
    (canvasHeight cfg)) = _
  rw [MaxRectsPacker.initFreeRects, listRegion_cons, listRegion_nil,
    Set.union_empty]
  show rectRegion (canvasRect cfg) = _
  rw [show (initState cfg).packed = [] from rfl, List.map_nil, listRegion_nil,
    Set.diff_empty]

/-- **C2** — At every point of a run the free-rectangle list covers exactly
the canvas area not covered by any already-placed padding-inflated
rectangle: this set equality holds after each step of the packing loop, it is
preserved by the split step, which removes exactly the newly used rectangle's
region (replacing each intersecting free rectangle by up to four residual
slivers), followed by the prune step (removing free rectangles contained in
another), which never changes the covered area. -/
theorem free_space_exact_coverage (files : List UploadedFile)
    (cfg : CanvasConfig) (autoScaleToFit shouldTrim : Bool) :
    (∀ n : ℕ,
      listRegion (packRunState files cfg autoScaleToFit shouldTrim n).freeRects =
        rectRegion (canvasRect cfg) \
          listRegion ((packRunState files cfg autoScaleToFit
            shouldTrim n).packed.map (inflate cfg.padding))) ∧
    (∀ (used : Rect) (frs : List Rect),
      listRegion (MaxRectsPacker.splitFreeRects used frs) =
        listRegion frs \ rectRegion used) ∧
    (∀ l : List Rect,
      listRegion (MaxRectsPacker.pruneFreeRects l) = listRegion l) :=
  ⟨packRun_region files cfg autoScaleToFit shouldTrim,
   splitFreeRects_region, pruneFreeRects_region⟩

end DtfPack
